import Mathlib

/-!
# fyne init: identifier derivation and scaffold orchestration

A shallow embedding of `cmd/fyne/internal/commands/init.go`.

Go strings are modelled by Lean strings.  The only separators the source
splits on are the one-byte ASCII strings `"/"` and `"."`, so splitting a
string character by character agrees with Go's byte-wise split on every
valid UTF-8 input.

A Go run-time panic (index out of range, negative `make` length) is modelled
by `none`.
-/

namespace FyneInit

/-! ## Standard library: `strings.Split`, `strings.Join` -/

/-- The pieces of `s` between the occurrences of the separator `sep`, in
order; a list without the separator is a single piece. -/
def splitChars (sep : Char) : List Char → List (List Char)
  | [] => [[]]
  | c :: cs =>
    if c = sep then [] :: splitChars sep cs
    else
      match splitChars sep cs with
      | [] => [[c]]
      | h :: t => (c :: h) :: t

/-- Go `strings.Split(s, sep)` for a one-character separator. -/
def stringsSplit (s : String) (sep : Char) : List String :=
  (splitChars sep s.data).map String.mk

/-- Go `strings.Join(elems, sep)`. -/
def stringsJoin (elems : List String) (sep : String) : String :=
  match elems with
  | [] => ""
  | e :: es => es.foldl (fun b s => b ++ sep ++ s) e

/-! ## Slices of strings with bounds-checked writes -/

/-- The assignment `r[i] = e` on a slice: `none` when `i` is out of range. -/
def sliceSet (r : List String) (i : Int) (e : String) : Option (List String) :=
  if 0 ≤ i ∧ i < r.length then some (r.set i.toNat e) else none

/-- Go `make([]string, n)`: `none` when `n` is negative. -/
def makeSlice (n : Int) : Option (List String) :=
  if 0 ≤ n then some (List.replicate n.toNat "") else none

/-- The state of `getAppID` after its loops: the slice `r` and, as ghost
data, the indices written by the first and by the second loop, in order. -/
structure AppIDState where
  r : List String
  writes1 : List Int
  writes2 : List Int
  deriving DecidableEq, Repr

/-- First loop of `getAppID`, `for n, e := range d { r[len(d)-n-1] = e }`,
from iteration `n` on; `lenD` is `len(d)`. -/
def reverseLoop (lenD : Int) : Int → List String → AppIDState → Option AppIDState
  | _, [], st => some st
  | n, e :: es, st =>
    match sliceSet st.r (lenD - n - 1) e with
    | none => none
    | some r => reverseLoop lenD (n + 1) es { st with r := r, writes1 := st.writes1 ++ [lenD - n - 1] }

/-- Second loop of `getAppID`,
`for n, e := range p { if n == 0 { continue }; r[len(d)+n-1] = e }`,
from iteration `n` on. -/
def appendLoop (lenD : Int) : Int → List String → AppIDState → Option AppIDState
  | _, [], st => some st
  | n, e :: es, st =>
    if n = 0 then appendLoop lenD (n + 1) es st
    else
      match sliceSet st.r (lenD + n - 1) e with
      | none => none
      | some r => appendLoop lenD (n + 1) es { st with r := r, writes2 := st.writes2 ++ [lenD + n - 1] }

/-- The outcome of the body of `getAppID` up to the `return`. -/
inductive AppIDRun where
  /-- The guard `len(p) == 0` was taken. -/
  | guard
  /-- Both loops ran and left this state. -/
  | loops (p d : List String) (st : AppIDState)
  deriving DecidableEq, Repr

/-- The body of `getAppID` before `strings.Join`; `none` is a panic. -/
def getAppIDRun (modpath : String) : Option AppIDRun :=
  let p := stringsSplit modpath '/'
  if p.length = 0 then some .guard
  else
    match p[0]? with
    | none => none
    | some p0 =>
      let d := stringsSplit p0 '.'
      match makeSlice ((p.length : Int) + d.length - 1) with
      | none => none
      | some r =>
        match reverseLoop d.length 0 d ⟨r, [], []⟩ with
        | none => none
        | some st1 =>
          match appendLoop d.length 0 p st1 with
          | none => none
          | some st2 => some (.loops p d st2)

/-- Go `getAppID(modpath)`; `none` is a panic. -/
def getAppID (modpath : String) : Option String :=
  match getAppIDRun modpath with
  | none => none
  | some .guard => some ""
  | some (.loops _ _ st) => some (stringsJoin st.r ".")

/-- Go `getAppName(modpath)`; `none` is a panic. -/
def getAppName (modpath : String) : Option String :=
  let p := stringsSplit modpath '/'
  if p.length = 0 then some ""
  else if p.length > 1 then p[p.length - 1]?
  else
    match p[0]? with
    | none => none
    | some p0 => (stringsSplit p0 '.')[0]?

/-! ## Standard library: `path/filepath.Base` (Unix) -/

/-- Go `filepath.Base(path)` with separator `/`: the last element of the
path after trailing slashes are removed; `"."` for the empty path and `"/"`
for a path of slashes only. -/
def filepathBase (path : String) : String :=
  if path = "" then "."
  else
    let stripped := path.data.reverse.dropWhile (fun c => c = '/')
    let last := (stripped.takeWhile (fun c => c ≠ '/')).reverse
    if last = [] then "/" else String.mk last

/-! ## Errors, files, the environment of a run -/

/-- A Go `error` value: its message and whether
`errors.Is(err, os.ErrNotExist)` holds of it. -/
structure GoError where
  msg : String
  isNotExist : Bool
  deriving DecidableEq, Repr

/-- Go `errors.Is(err, os.ErrNotExist)` on a possibly nil error. -/
def errorsIsNotExist : Option GoError → Bool
  | some e => e.isNotExist
  | none => false

/-- The error of a system call on a missing file. -/
def errNotExist (op file : String) : GoError :=
  ⟨op ++ " " ++ file ++ ": no such file or directory", true⟩

/-- Go `fmt.Errorf(prefix + "%v", err)`: a fresh error that does not wrap
`err`. -/
def fmtErrorf (pre : String) (err : GoError) : GoError :=
  ⟨pre ++ err.msg, false⟩

/-- A regular file: its bytes and its permission bits. -/
structure File where
  content : String
  mode : Nat
  deriving DecidableEq, Repr

/-- The files of the working directory, by name. -/
abbrev FS := String → Option File

/-- The file system with `file` replaced by `f`. -/
def FS.set (fs : FS) (file : String) (f : File) : FS :=
  fun name => if name = file then some f else fs name

/-- What a run does not decide itself: the working directory, I/O failures,
the external `go` tool and the `%q` verb of `fmt`. -/
structure Env where
  /-- Result of `os.Getwd()`. -/
  getwd : Except GoError String
  /-- Message of the I/O error, distinct from not-found, with which probing a
  file fails. -/
  statFault : String → Option String
  /-- Error with which `atomic.WriteFile` fails on a file. -/
  writeFault : String → Option GoError
  /-- Error with which `os.Chmod` fails on a file. -/
  chmodFault : String → Option GoError
  /-- Running a command to completion, as in `exec.Command(argv...).Run()`: its
  effect on the files and its error, nil on exit status 0. -/
  runCmd : List String → FS → FS × Option GoError
  /-- The text `fmt` prints for a string under `%q`. -/
  quote : String → String

/-- The system calls and subprocesses of a run, in order, with their errors. -/
inductive Event where
  | stat (file : String) (err : Option GoError)
  | write (file content : String) (err : Option GoError)
  | chmod (file : String) (mode : Nat) (err : Option GoError)
  | exec (argv : List String) (err : Option GoError)
  deriving DecidableEq, Repr

/-- How a function call ends. -/
inductive Outcome where
  | returned (err : Option GoError)
  | panicked
  deriving DecidableEq, Repr

/-- A run: the files it leaves, what it did, how it ended. -/
structure Run where
  fs : FS
  trace : List Event
  ret : Outcome

/-- Sequencing `if err := first; err != nil { return err }; next`. -/
def Run.andThen (r : Run) (next : FS → Run) : Run :=
  match r.ret with
  | .returned none => ⟨(next r.fs).fs, r.trace ++ (next r.fs).trace, (next r.fs).ret⟩
  | _ => r

/-- Go `os.Stat(file)`: the pair `(fi, err)`, exactly one of them non-nil. -/
def osStat (env : Env) (fs : FS) (file : String) : Option File × Option GoError :=
  match env.statFault file with
  | some m => (none, some ⟨m, false⟩)
  | none =>
    match fs file with
    | some f => (some f, none)
    | none => (none, some (errNotExist "stat" file))

/-- The call `atomic.WriteFile(file, strings.NewReader(content))`: all or
nothing; a new file gets the mode of the temporary file, an existing one keeps
its mode. -/
def atomicWriteFile (env : Env) (file content : String) (fs : FS) : Run :=
  match env.writeFault file with
  | some e => ⟨fs, [.write file content (some e)], .returned (some e)⟩
  | none =>
    ⟨fs.set file ⟨content, match fs file with | some f => f.mode | none => 0o600⟩,
      [.write file content none], .returned none⟩

/-- Go `os.Chmod(file, mode)`. -/
def osChmod (env : Env) (file : String) (mode : Nat) (fs : FS) : Run :=
  match env.chmodFault file with
  | some e => ⟨fs, [.chmod file mode (some e)], .returned (some e)⟩
  | none =>
    match fs file with
    | some f => ⟨fs.set file { f with mode := mode }, [.chmod file mode none], .returned none⟩
    | none =>
      ⟨fs, [.chmod file mode (some (errNotExist "chmod" file))],
        .returned (some (errNotExist "chmod" file))⟩

/-- The pattern `cmd := exec.Command(argv...); return cmd.Run()`. -/
def execRun (env : Env) (argv : List String) (fs : FS) : Run :=
  ⟨(env.runCmd argv fs).1, [.exec argv (env.runCmd argv fs).2], .returned (env.runCmd argv fs).2⟩

/-! ## The source: templates, `checkFileOrDo`, `checkFileOrCreate`, `initAction` -/

/-- The text `fmt.Sprintf(codeFmt, appID)`, given the `%q` rendering of `appID`. -/
def codeFmt (qID : String) : String :=
  "package main\n\nimport (\n\t\"fyne.io/fyne/v2/app\"\n\t\"fyne.io/fyne/v2/widget\"\n)\n\nfunc main() \x7b\n\ta := app.NewWithID(" ++ qID ++ ")\n\tw := a.NewWindow(\"Hello World\")\n\n\tw.SetContent(widget.NewLabel(\"Hello World!\"))\n\tw.ShowAndRun()\n\x7d\n"

/-- The text `fmt.Sprintf(tomlFmt, appName, appID)`, given the `%q` renderings. -/
def tomlFmt (qName qID : String) : String :=
  "[Details]\nIcon = \"Icon.png\"\nName = " ++ qName ++ "\nID = " ++ qID ++ "\nVersion = \"0.0.1\"\nBuild = 1\n"

/-- Go `checkFileOrDo(file, cb)`. -/
def checkFileOrDo (env : Env) (file : String) (cb : FS → Run) (fs : FS) : Run :=
  let st := osStat env fs file
  if st.2.isSome ∧ ¬ errorsIsNotExist st.2 then
    ⟨fs, [.stat file st.2], .returned st.2⟩
  else if st.1.isSome then
    ⟨fs, [.stat file st.2], .returned none⟩
  else
    ⟨(cb fs).fs, .stat file st.2 :: (cb fs).trace, (cb fs).ret⟩

/-- Go `checkFileOrCreate(file, content)`. -/
def checkFileOrCreate (env : Env) (file content : String) (fs : FS) : Run :=
  checkFileOrDo env file
    (fun fs => (atomicWriteFile env file content fs).andThen (osChmod env file 0o644)) fs

/-- The command line of `fyne init`: positional arguments and the values of
the `appID` and `name` flags, empty when not given. -/
structure Context where
  args : List String
  appID : String
  name : String
  deriving DecidableEq, Repr

/-- Lines 121 and 125 to 136 of `initAction`: the module path, or the error of
`os.Getwd`. -/
def resolveModpath (env : Env) (ctx : Context) : Except GoError String :=
  let modpath := ctx.args.getD 0 ""
  if modpath = "" then
    match env.getwd with
    | .error err => .error err
    | .ok wd => if wd ≠ "" ∧ wd ≠ "." then .ok (filepathBase wd) else .ok "example"
  else .ok modpath

/-- Lines 138 to 140 of `initAction`. -/
def resolveAppID (ctx : Context) (modpath : String) : Option String :=
  if ctx.appID = "" then getAppID modpath else some ctx.appID

/-- Lines 142 to 144 of `initAction`. -/
def resolveAppName (ctx : Context) (modpath : String) : Option String :=
  if ctx.name = "" then getAppName modpath else some ctx.name

/-- Lines 146 to 148 of `initAction`: `main.go`. -/
def mainStep (env : Env) (appID : String) (fs : FS) : Run :=
  checkFileOrCreate env "main.go" (codeFmt (env.quote appID)) fs

/-- Lines 150 to 156 of `initAction`: `go.mod`, by `go mod init modpath`. -/
def modStep (env : Env) (modpath : String) (fs : FS) : Run :=
  checkFileOrDo env "go.mod" (execRun env ["go", "mod", "init", modpath]) fs

/-- Lines 158 to 160 of `initAction`: `FyneApp.toml`. -/
def tomlStep (env : Env) (appName appID : String) (fs : FS) : Run :=
  checkFileOrCreate env "FyneApp.toml" (tomlFmt (env.quote appName) (env.quote appID)) fs

/-- Lines 162 to 168 of `initAction`: `go mod tidy`, its error wrapped. -/
def tidyStep (env : Env) (fs : FS) : Run :=
  match (env.runCmd ["go", "mod", "tidy"] fs).2 with
  | some err =>
    ⟨(env.runCmd ["go", "mod", "tidy"] fs).1, [.exec ["go", "mod", "tidy"] (some err)],
      .returned (some (fmtErrorf "failed to run command: " err))⟩
  | none =>
    ⟨(env.runCmd ["go", "mod", "tidy"] fs).1, [.exec ["go", "mod", "tidy"] none], .returned none⟩

/-- Lines 146 to 168 of `initAction`: the four steps in order, each returning
at once on an error. -/
def scaffold (env : Env) (modpath appID appName : String) (fs : FS) : Run :=
  (mainStep env appID fs).andThen fun fs =>
  (modStep env modpath fs).andThen fun fs =>
  (tomlStep env appName appID fs).andThen fun fs =>
  tidyStep env fs

/-- Go `initAction(ctx)`. -/
def initAction (env : Env) (ctx : Context) (fs : FS) : Run :=
  match resolveModpath env ctx with
  | .error err => ⟨fs, [], .returned (some err)⟩
  | .ok modpath =>
    match resolveAppID ctx modpath with
    | none => ⟨fs, [], .panicked⟩
    | some appID =>
      match resolveAppName ctx modpath with
      | none => ⟨fs, [], .panicked⟩
      | some appName => scaffold env modpath appID appName fs

/-! ## Concrete environments for the examples -/

/-- The directory with no files. -/
def emptyFS : FS := fun _ => none

/-- A fake `go` tool: `go mod init m` writes `go.mod`, anything else does
nothing; both succeed. -/
def fakeGo : List String → FS → FS × Option GoError
  | ["go", "mod", "init", m], fs => (fs.set "go.mod" ⟨"module " ++ m ++ "\n", 0o644⟩, none)
  | _, fs => (fs, none)

/-- An environment without failures, in the directory `/home/u/myapp`. -/
def fakeEnv : Env where
  getwd := .ok "/home/u/myapp"
  statFault := fun _ => none
  writeFault := fun _ => none
  chmodFault := fun _ => none
  runCmd := fakeGo
  quote := fun s => "\"" ++ s ++ "\""

/-- The environment `fakeEnv` with the root as working directory. -/
def rootEnv : Env := { fakeEnv with getwd := .ok "/" }

/-- A directory in which the user already has a `main.go` and a `go.mod`. -/
def ownFS : FS :=
  (emptyFS.set "main.go" ⟨"// mine\n", 0o600⟩).set "go.mod" ⟨"module own\n", 0o644⟩

/-- A `go` tool whose every command fails with exit status 1 and changes
nothing. -/
def failingGo : List String → FS → FS × Option GoError :=
  fun _ fs => (fs, some ⟨"exit status 1", false⟩)

/-- The environment `fakeEnv` with the failing `go` tool. -/
def failingEnv : Env := { fakeEnv with runCmd := failingGo }

/-- What `go mod tidy` makes of a `go.mod`: its module line followed by
the one requirement of the generated program. -/
def tidied (content : String) : String :=
  String.mk (content.data.takeWhile (fun c => c ≠ '\n')) ++ "\nrequire fyne.io/fyne/v2 v2.5.0\n"

/-- A `go` tool close to the real one: `go mod init m` fails when `go.mod`
exists and writes it otherwise; `go mod tidy` fails without a `go.mod` and
otherwise rewrites it, with the same result when run again. -/
def moduleGo : List String → FS → FS × Option GoError
  | ["go", "mod", "init", m], fs =>
    match fs "go.mod" with
    | some _ => (fs, some ⟨"go.mod already exists", false⟩)
    | none => (fs.set "go.mod" ⟨"module " ++ m ++ "\n", 0o644⟩, none)
  | ["go", "mod", "tidy"], fs =>
    match fs "go.mod" with
    | some f => (fs.set "go.mod" ⟨tidied f.content, f.mode⟩, none)
    | none => (fs, some ⟨"go.mod file not found", false⟩)
  | _, fs => (fs, none)

/-- The environment `fakeEnv` with the tool `moduleGo`. -/
def moduleEnv : Env := { fakeEnv with runCmd := moduleGo }

/-- A `go` tool whose `go mod init m` writes `go.mod` and whose `go mod tidy`
appends a line to `go.mod` every time; both succeed and touch no other file. -/
def appendingGo : List String → FS → FS × Option GoError
  | ["go", "mod", "init", m], fs => (fs.set "go.mod" ⟨"module " ++ m ++ "\n", 0o644⟩, none)
  | ["go", "mod", "tidy"], fs =>
    match fs "go.mod" with
    | some f => (fs.set "go.mod" ⟨f.content ++ "require x\n", f.mode⟩, none)
    | none => (fs, none)
  | _, fs => (fs, none)

/-- The environment `fakeEnv` with the tool `appendingGo`. -/
def appendingEnv : Env := { fakeEnv with runCmd := appendingGo }

/-- A `go` tool whose `go mod init m` writes `go.mod` and whose `go mod tidy`
removes `go.mod`; both succeed and touch no other file. -/
def removingGo : List String → FS → FS × Option GoError
  | ["go", "mod", "init", m], fs => (fs.set "go.mod" ⟨"module " ++ m ++ "\n", 0o644⟩, none)
  | ["go", "mod", "tidy"], fs => (fun name => if name = "go.mod" then none else fs name, none)
  | _, fs => (fs, none)

/-- The environment `fakeEnv` with the tool `removingGo`. -/
def removingEnv : Env := { fakeEnv with runCmd := removingGo }

/-- The environment `fakeEnv` on a disk where writing `main.go` fails. -/
def diskFullEnv : Env :=
  { fakeEnv with
    writeFault := fun file =>
      if file = "main.go" then some ⟨"no space left on device", false⟩ else none }

/-! ## Lemmas on the string model -/

theorem splitChars_ne_nil (sep : Char) (cs : List Char) : splitChars sep cs ≠ [] := by
  cases cs with
  | nil => simp [splitChars]
  | cons c cs =>
    unfold splitChars
    split
    · simp
    · split <;> simp

/-- Joining the pieces with the separator gives the list back. -/
theorem intercalate_splitChars (sep : Char) (cs : List Char) :
    List.intercalate [sep] (splitChars sep cs) = cs := by
  induction cs with
  | nil => simp [splitChars, List.intercalate]
  | cons c cs ih =>
    unfold splitChars
    by_cases hc : c = sep
    · simp only [hc, if_true]
      cases hs : splitChars sep cs with
      | nil => exact absurd hs (splitChars_ne_nil sep cs)
      | cons h t =>
        rw [hs] at ih
        simp [List.intercalate] at ih ⊢
        exact ih
    · simp only [hc, if_false]
      cases hs : splitChars sep cs with
      | nil => exact absurd hs (splitChars_ne_nil sep cs)
      | cons h t =>
        rw [hs] at ih
        cases t with
        | nil => simp [List.intercalate] at ih ⊢; exact ih
        | cons t1 t2 => simp [List.intercalate] at ih ⊢; exact ih

/-- No piece contains the separator. -/
theorem not_mem_of_mem_splitChars (sep : Char) (cs piece : List Char)
    (h : piece ∈ splitChars sep cs) : sep ∉ piece := by
  induction cs generalizing piece with
  | nil => simp [splitChars] at h; simp [h]
  | cons c cs ih =>
    unfold splitChars at h
    by_cases hc : c = sep
    · simp only [hc, if_true, List.mem_cons] at h
      rcases h with h | h
      · simp [h]
      · exact ih piece h
    · simp only [hc, if_false] at h
      cases hs : splitChars sep cs with
      | nil => exact absurd hs (splitChars_ne_nil sep cs)
      | cons h1 t =>
        rw [hs] at h ih
        simp only [List.mem_cons] at h
        rcases h with h | h
        · subst h
          have := ih h1 (by simp)
          simp only [List.mem_cons, not_or]
          exact ⟨fun e => hc e.symm, this⟩
        · exact ih piece (by simp [h])

/-- A list without the separator is its own single piece. -/
theorem splitChars_of_not_mem (sep : Char) (cs : List Char) (h : sep ∉ cs) :
    splitChars sep cs = [cs] := by
  induction cs with
  | nil => rfl
  | cons c cs ih =>
    simp only [List.mem_cons, not_or] at h
    unfold splitChars
    rw [if_neg (fun e => h.1 e.symm), ih h.2]

theorem stringsSplit_ne_nil (s : String) (sep : Char) : stringsSplit s sep ≠ [] := by
  simp [stringsSplit, splitChars_ne_nil]

theorem stringsSplit_of_not_mem (s : String) (sep : Char) (h : sep ∉ s.data) :
    stringsSplit s sep = [s] := by
  simp [stringsSplit, splitChars_of_not_mem sep s.data h]

/-! ## Lemmas on the loops of `getAppID` -/

theorem set_replicate_succ_append (m : Nat) (e : String) (rest : List String) :
    (List.replicate (m + 1) "" ++ rest).set m e = List.replicate m "" ++ e :: rest := by
  induction m with
  | zero => rfl
  | succ m ih =>
    rw [List.replicate_succ, List.cons_append, List.set_cons_succ, ih]
    rfl

theorem set_length_append_cons (pre : List String) (x e : String) (rest : List String) :
    (pre ++ x :: rest).set pre.length e = pre ++ e :: rest := by
  induction pre with
  | nil => rfl
  | cons a pre ih => simp [ih]

/-- The first loop writes the elements in reversed order into the leading
slots, from the last slot of that block down to slot 0. -/
theorem reverseLoop_eq (es : List String) :
    ∀ (n : Nat) (rest : List String) (w1 w2 : List Int),
      reverseLoop ((n + es.length : Nat) : Int) (n : Int) es
          ⟨List.replicate es.length "" ++ rest, w1, w2⟩
        = some ⟨es.reverse ++ rest,
            w1 ++ (List.range es.length).reverse.map Int.ofNat, w2⟩ := by
  induction es with
  | nil => intro n rest w1 w2; simp [reverseLoop]
  | cons e es ih =>
    intro n rest w1 w2
    have hidx : ((n + (e :: es).length : Nat) : Int) - (n : Int) - 1 = (es.length : Int) := by
      simp only [List.length_cons]; push_cast; ring
    unfold reverseLoop
    rw [hidx]
    have hset : sliceSet (List.replicate (e :: es).length "" ++ rest) (es.length : Int) e
        = some (List.replicate es.length "" ++ e :: rest) := by
      unfold sliceSet
      rw [if_pos]
      · simp only [List.length_cons, Int.toNat_ofNat, set_replicate_succ_append]
      · constructor
        · exact Int.ofNat_nonneg _
        · simp only [List.length_append, List.length_replicate, List.length_cons]
          push_cast; omega
    simp only [hset]
    have hn : ((n + (e :: es).length : Nat) : Int) = ((n + 1 + es.length : Nat) : Int) := by
      simp only [List.length_cons]; push_cast; ring
    have hn1 : (n : Int) + 1 = ((n + 1 : Nat) : Int) := by push_cast; rfl
    rw [hn, hn1, ih (n + 1) (e :: rest) (w1 ++ [(es.length : Int)]) w2]
    simp [List.range_succ, List.append_assoc]

/-- The second loop, past its first iteration, writes the elements in order
into the slots that follow the filled prefix. -/
theorem appendLoop_eq (lenD : Int) (es : List String) :
    ∀ (n : Int) (pre : List String) (w1 w2 : List Int),
      1 ≤ n → (pre.length : Int) = lenD + n - 1 →
      appendLoop lenD n es ⟨pre ++ List.replicate es.length "", w1, w2⟩
        = some ⟨pre ++ es, w1,
            w2 ++ (List.range' pre.length es.length).map Int.ofNat⟩ := by
  induction es with
  | nil => intro n pre w1 w2 _ _; simp [appendLoop]
  | cons e es ih =>
    intro n pre w1 w2 hn hpre
    unfold appendLoop
    rw [if_neg (by omega)]
    have hset : sliceSet (pre ++ List.replicate (e :: es).length "") (lenD + n - 1) e
        = some ((pre ++ [e]) ++ List.replicate es.length "") := by
      unfold sliceSet
      rw [if_pos]
      · rw [← hpre, Int.toNat_ofNat, List.length_cons, List.replicate_succ,
          set_length_append_cons]
        simp
      · rw [← hpre]
        constructor
        · exact Int.ofNat_nonneg _
        · simp only [List.length_append, List.length_replicate, List.length_cons]
          push_cast; omega
    simp only [hset]
    rw [ih (n + 1) (pre ++ [e]) w1 (w2 ++ [lenD + n - 1]) (by omega)
      (by simp only [List.length_append, List.length_singleton]; push_cast; omega)]
    simp [List.range', ← hpre, List.append_assoc]

/-- The state `getAppID` reaches: the slice holds the reversed domain labels
followed by the non-first path segments. -/
theorem getAppIDRun_eq (modpath : String) :
    ∃ h s, stringsSplit modpath '/' = h :: s ∧
      getAppIDRun modpath = some (.loops (h :: s) (stringsSplit h '.')
        ⟨(stringsSplit h '.').reverse ++ s,
         (List.range (stringsSplit h '.').length).reverse.map Int.ofNat,
         (List.range' (stringsSplit h '.').length s.length).map Int.ofNat⟩) := by
  cases hp : stringsSplit modpath '/' with
  | nil => exact absurd hp (stringsSplit_ne_nil _ _)
  | cons h s =>
    refine ⟨h, s, rfl, ?_⟩
    unfold getAppIDRun
    simp only [hp, List.length_cons, Nat.add_one_ne_zero, if_false, List.getElem?_cons_zero]
    have hmk : makeSlice (((s.length + 1 : Nat) : Int) + ((stringsSplit h '.').length : Int) - 1)
        = some (List.replicate (stringsSplit h '.').length "" ++ List.replicate s.length "") := by
      unfold makeSlice
      rw [if_pos (by push_cast; omega)]
      have : (((s.length + 1 : Nat) : Int) + ((stringsSplit h '.').length : Int) - 1).toNat
          = (stringsSplit h '.').length + s.length := by push_cast; omega
      rw [this, List.replicate_add]
    simp only [hmk]
    have h1 := reverseLoop_eq (stringsSplit h '.') 0 (List.replicate s.length "") [] []
    simp only [Nat.zero_add, Nat.cast_zero, List.nil_append] at h1
    simp only [h1]
    unfold appendLoop
    simp only [if_true, Int.zero_add]
    have h2 := appendLoop_eq ((stringsSplit h '.').length : Int) s 1
      ((stringsSplit h '.').reverse) ((List.range (stringsSplit h '.').length).reverse.map Int.ofNat) []
      (le_refl _) (by simp)
    simp only [List.length_reverse, List.nil_append] at h2
    simp only [h2]

theorem getAppID_eq (modpath : String) :
    ∃ h s, stringsSplit modpath '/' = h :: s ∧
      getAppID modpath = some (stringsJoin ((stringsSplit h '.').reverse ++ s) ".") := by
  obtain ⟨h, s, hp, hrun⟩ := getAppIDRun_eq modpath
  exact ⟨h, s, hp, by simp only [getAppID, hrun]⟩

theorem getAppName_eq (modpath : String) :
    ∃ h s d ds, stringsSplit modpath '/' = h :: s ∧ stringsSplit h '.' = d :: ds ∧
      getAppName modpath
        = some (if 1 < (h :: s).length then (h :: s).getLast (List.cons_ne_nil h s) else d) := by
  cases hp : stringsSplit modpath '/' with
  | nil => exact absurd hp (stringsSplit_ne_nil _ _)
  | cons h s =>
    cases hd : stringsSplit h '.' with
    | nil => exact absurd hd (stringsSplit_ne_nil _ _)
    | cons d ds =>
      refine ⟨h, s, d, ds, rfl, hd, ?_⟩
      unfold getAppName
      simp only [hp, List.length_cons, Nat.add_one_ne_zero, if_false]
      by_cases hs : s.length + 1 > 1
      · rw [if_pos hs, if_pos hs]
        rw [List.getLast_eq_getElem, List.getElem?_eq_getElem (by simp)]
        simp
      · rw [if_neg hs, if_neg hs]
        simp [hd]

/-! ## The claims on the identifier deriver -/

/-- C1: with `h :: s` the pieces of the module path between slashes and `ds`
the pieces of `h` between dots, `getAppID` returns the reversed `ds` followed
by `s`, joined with dots; the two example paths of the specification give
`example.com.group.myapp` and `example.com.myapp`. -/
theorem getAppID_reversed_domain_then_segments (path : String) :
    (∃ h s, stringsSplit path '/' = h :: s ∧
      getAppID path = some (stringsJoin ((stringsSplit h '.').reverse ++ s) ".")) ∧
    getAppID "com.example/group/myapp" = some "example.com.group.myapp" ∧
    getAppID "com.example/myapp" = some "example.com.myapp" :=
  ⟨getAppID_eq path, by decide, by decide⟩

/-- C2: `getAppName` returns the last piece between slashes when there is more
than one piece, and otherwise the first piece between dots of the only piece;
both example paths of the specification give `myapp`. -/
theorem getAppName_last_segment_or_first_label (path : String) :
    (∃ h s d ds, stringsSplit path '/' = h :: s ∧ stringsSplit h '.' = d :: ds ∧
      getAppName path
        = some (if 1 < (h :: s).length then (h :: s).getLast (List.cons_ne_nil h s) else d)) ∧
    getAppName "com.example/group/myapp" = some "myapp" ∧
    getAppName "com.example/myapp" = some "myapp" :=
  ⟨getAppName_eq path, by decide, by decide⟩

/-- C3: on a non-empty path with no slash and no dot, `getAppID` and
`getAppName` both return the path itself. -/
theorem getAppID_getAppName_fixed_on_single_label (p : String) (_hne : p ≠ "")
    (hslash : '/' ∉ p.data) (hdot : '.' ∉ p.data) :
    getAppID p = some p ∧ getAppName p = some p := by
  constructor
  · obtain ⟨h, s, hp, hid⟩ := getAppID_eq p
    rw [stringsSplit_of_not_mem p '/' hslash] at hp
    injection hp with h1 h2
    subst h1; subst h2
    rw [hid, stringsSplit_of_not_mem p '.' hdot]
    rfl
  · obtain ⟨h, s, d, ds, hp, hd, hnm⟩ := getAppName_eq p
    rw [stringsSplit_of_not_mem p '/' hslash] at hp
    injection hp with h1 h2
    subst h1; subst h2
    rw [stringsSplit_of_not_mem p '.' hdot] at hd
    injection hd with h3 h4
    subst h3
    rw [hnm]
    simp

theorem getAppID_getAppName_fixed_on_single_label_witness :
    "example" ≠ "" ∧ '/' ∉ "example".data ∧ '.' ∉ "example".data ∧
      getAppID "example" = some "example" ∧ getAppName "example" = some "example" :=
  ⟨by decide, by decide, by decide,
    getAppID_getAppName_fixed_on_single_label "example" (by decide) (by decide) (by decide)⟩

/-- C4: `getAppID` and `getAppName` never panic.  Splitting on the slash gives
at least one piece, so the guard `len(p) == 0` is not taken; the slice `r` has
length `len(p)+len(d)-1`; the first loop writes the slots `len(d)-1` down to
`0`, the second the slots `len(d)` up to `len(d)+len(p)-2`, and every slot of
`r` is written exactly once. -/
theorem getAppID_getAppName_total_writes_disjoint (modpath : String) :
    1 ≤ (stringsSplit modpath '/').length ∧
    getAppIDRun modpath ≠ some .guard ∧
    (∃ p d st, getAppIDRun modpath = some (.loops p d st) ∧
      p = stringsSplit modpath '/' ∧ 1 ≤ d.length ∧
      (st.r.length : Int) = (p.length : Int) + d.length - 1 ∧
      st.writes1 = (List.range d.length).reverse.map Int.ofNat ∧
      st.writes2 = (List.range' d.length (p.length - 1)).map Int.ofNat ∧
      (∀ i : Nat, i < st.r.length → (st.writes1 ++ st.writes2).count (i : Int) = 1) ∧
      (∀ i ∈ st.writes1 ++ st.writes2, 0 ≤ i ∧ i < st.r.length)) ∧
    (∃ id, getAppID modpath = some id) ∧ (∃ name, getAppName modpath = some name) := by
  obtain ⟨h, s, hp, hrun⟩ := getAppIDRun_eq modpath
  refine ⟨by simp [hp], by simp [hrun], ?_, ?_, ?_⟩
  · have hd : 1 ≤ (stringsSplit h '.').length := by
      cases hd : stringsSplit h '.' with
      | nil => exact absurd hd (stringsSplit_ne_nil _ _)
      | cons d ds => simp
    refine ⟨h :: s, stringsSplit h '.', _, hrun, hp.symm, hd, ?_, rfl, ?_, ?_, ?_⟩
    · simp only [List.length_append, List.length_reverse, List.length_cons]
      push_cast; omega
    · simp
    · intro i hi
      simp only [List.length_append, List.length_reverse] at hi
      have hnd : ((List.range (stringsSplit h '.').length).reverse.map Int.ofNat ++
          (List.range' (stringsSplit h '.').length s.length).map Int.ofNat).Nodup := by
        rw [← List.map_append]
        refine List.Nodup.map (fun a b hab => Int.ofNat.inj hab) ?_
        rw [List.nodup_append]
        refine ⟨List.nodup_reverse.mpr (List.nodup_range _), List.nodup_range' _ _, ?_⟩
        intro a ha hb
        simp only [List.mem_reverse, List.mem_range, List.mem_range'_1] at ha hb
        omega
      refine List.count_eq_one_of_mem hnd ?_
      rw [← List.map_append]
      refine List.mem_map.mpr ⟨i, ?_, rfl⟩
      simp only [List.mem_append, List.mem_reverse, List.mem_range, List.mem_range'_1]
      omega
    · intro i hi
      rw [← List.map_append] at hi
      obtain ⟨a, ha, rfl⟩ := List.mem_map.mp hi
      simp only [List.mem_append, List.mem_reverse, List.mem_range, List.mem_range'_1] at ha
      simp only [List.length_append, List.length_reverse]
      constructor
      · exact Int.ofNat_nonneg a
      · show (a : Int) < _
        push_cast
        omega
  · obtain ⟨h, s, _, hid⟩ := getAppID_eq modpath
    exact ⟨_, hid⟩
  · obtain ⟨h, s, d, ds, _, _, hnm⟩ := getAppName_eq modpath
    exact ⟨_, hnm⟩


/-! ## Lemmas on the steps of the orchestrator -/

theorem checkFileOrDo_fault (env : Env) (file : String) (cb : FS → Run) (fs : FS) (m : String)
    (h : env.statFault file = some m) :
    checkFileOrDo env file cb fs
      = ⟨fs, [.stat file (some ⟨m, false⟩)], .returned (some ⟨m, false⟩)⟩ := by
  simp [checkFileOrDo, osStat, h, errorsIsNotExist]

theorem checkFileOrDo_present (env : Env) (file : String) (cb : FS → Run) (fs : FS) (f : File)
    (h : env.statFault file = none) (hf : fs file = some f) :
    checkFileOrDo env file cb fs = ⟨fs, [.stat file none], .returned none⟩ := by
  simp [checkFileOrDo, osStat, h, hf, errorsIsNotExist]

theorem checkFileOrDo_absent (env : Env) (file : String) (cb : FS → Run) (fs : FS)
    (h : env.statFault file = none) (hf : fs file = none) :
    checkFileOrDo env file cb fs
      = ⟨(cb fs).fs, .stat file (some (errNotExist "stat" file)) :: (cb fs).trace, (cb fs).ret⟩ := by
  simp [checkFileOrDo, osStat, h, hf, errorsIsNotExist, errNotExist]

theorem set_set (fs : FS) (file : String) (f g : File) :
    (fs.set file f).set file g = fs.set file g := by
  funext name
  simp only [FS.set]
  split <;> rfl

theorem set_same (fs : FS) (file : String) (f : File) : (fs.set file f) file = some f := by
  simp [FS.set]

theorem set_other (fs : FS) (file name : String) (f : File) (h : name ≠ file) :
    (fs.set file f) name = fs name := by
  simp [FS.set, h]

theorem checkFileOrCreate_fault (env : Env) (file content : String) (fs : FS) (m : String)
    (h : env.statFault file = some m) :
    checkFileOrCreate env file content fs
      = ⟨fs, [.stat file (some ⟨m, false⟩)], .returned (some ⟨m, false⟩)⟩ :=
  checkFileOrDo_fault env file _ fs m h

theorem checkFileOrCreate_present (env : Env) (file content : String) (fs : FS) (f : File)
    (h : env.statFault file = none) (hf : fs file = some f) :
    checkFileOrCreate env file content fs = ⟨fs, [.stat file none], .returned none⟩ :=
  checkFileOrDo_present env file _ fs f h hf

theorem checkFileOrCreate_write_fails (env : Env) (file content : String) (fs : FS) (e : GoError)
    (h : env.statFault file = none) (hf : fs file = none) (hw : env.writeFault file = some e) :
    checkFileOrCreate env file content fs
      = ⟨fs, [.stat file (some (errNotExist "stat" file)), .write file content (some e)],
          .returned (some e)⟩ := by
  rw [checkFileOrCreate, checkFileOrDo_absent env file _ fs h hf]
  simp [atomicWriteFile, hw, Run.andThen]

theorem checkFileOrCreate_chmod_fails (env : Env) (file content : String) (fs : FS) (e : GoError)
    (h : env.statFault file = none) (hf : fs file = none) (hw : env.writeFault file = none)
    (hc : env.chmodFault file = some e) :
    checkFileOrCreate env file content fs
      = ⟨fs.set file ⟨content, 0o600⟩,
          [.stat file (some (errNotExist "stat" file)), .write file content none,
            .chmod file 0o644 (some e)],
          .returned (some e)⟩ := by
  rw [checkFileOrCreate, checkFileOrDo_absent env file _ fs h hf]
  simp [atomicWriteFile, hw, Run.andThen, osChmod, hc, hf]

theorem checkFileOrCreate_creates (env : Env) (file content : String) (fs : FS)
    (h : env.statFault file = none) (hf : fs file = none) (hw : env.writeFault file = none)
    (hc : env.chmodFault file = none) :
    checkFileOrCreate env file content fs
      = ⟨fs.set file ⟨content, 0o644⟩,
          [.stat file (some (errNotExist "stat" file)), .write file content none,
            .chmod file 0o644 none],
          .returned none⟩ := by
  rw [checkFileOrCreate, checkFileOrDo_absent env file _ fs h hf]
  simp [atomicWriteFile, hw, Run.andThen, osChmod, hc, hf, set_same, set_set]

/-- The five ways `checkFileOrCreate` can go. -/
theorem checkFileOrCreate_cases (env : Env) (file content : String) (fs : FS) :
    (∃ m, checkFileOrCreate env file content fs
        = ⟨fs, [.stat file (some ⟨m, false⟩)], .returned (some ⟨m, false⟩)⟩) ∨
    (∃ f, fs file = some f ∧
      checkFileOrCreate env file content fs = ⟨fs, [.stat file none], .returned none⟩) ∨
    (∃ e, fs file = none ∧ checkFileOrCreate env file content fs
        = ⟨fs, [.stat file (some (errNotExist "stat" file)), .write file content (some e)],
            .returned (some e)⟩) ∨
    (∃ e, fs file = none ∧ checkFileOrCreate env file content fs
        = ⟨fs.set file ⟨content, 0o600⟩,
            [.stat file (some (errNotExist "stat" file)), .write file content none,
              .chmod file 0o644 (some e)],
            .returned (some e)⟩) ∨
    (fs file = none ∧ checkFileOrCreate env file content fs
        = ⟨fs.set file ⟨content, 0o644⟩,
            [.stat file (some (errNotExist "stat" file)), .write file content none,
              .chmod file 0o644 none],
            .returned none⟩) := by
  cases h : env.statFault file with
  | some m => exact Or.inl ⟨m, checkFileOrCreate_fault env file content fs m h⟩
  | none =>
    cases hf : fs file with
    | some f => exact Or.inr (Or.inl ⟨f, rfl, checkFileOrCreate_present env file content fs f h hf⟩)
    | none =>
      cases hw : env.writeFault file with
      | some e =>
        exact Or.inr (Or.inr (Or.inl
          ⟨e, rfl, checkFileOrCreate_write_fails env file content fs e h hf hw⟩))
      | none =>
        cases hc : env.chmodFault file with
        | some e =>
          exact Or.inr (Or.inr (Or.inr (Or.inl
            ⟨e, rfl, checkFileOrCreate_chmod_fails env file content fs e h hf hw hc⟩)))
        | none =>
          exact Or.inr (Or.inr (Or.inr (Or.inr
            ⟨rfl, checkFileOrCreate_creates env file content fs h hf hw hc⟩)))

/-- `checkFileOrCreate` changes no file but its own. -/
theorem checkFileOrCreate_fs_other (env : Env) (file content name : String) (fs : FS)
    (hne : name ≠ file) : (checkFileOrCreate env file content fs).fs name = fs name := by
  rcases checkFileOrCreate_cases env file content fs with
    ⟨m, h⟩ | ⟨f, _, h⟩ | ⟨e, _, h⟩ | ⟨e, _, h⟩ | ⟨_, h⟩ <;> rw [h] <;>
    simp [set_other, hne]

/-- `checkFileOrCreate` leaves the whole file system alone when its file exists. -/
theorem checkFileOrCreate_fs_present (env : Env) (file content : String) (fs : FS) (f : File)
    (hf : fs file = some f) : (checkFileOrCreate env file content fs).fs = fs := by
  rcases checkFileOrCreate_cases env file content fs with
    ⟨m, h⟩ | ⟨f, _, h⟩ | ⟨e, h0, h⟩ | ⟨e, h0, h⟩ | ⟨h0, h⟩
  · rw [h]
  · rw [h]
  · rw [hf] at h0; cases h0
  · rw [hf] at h0; cases h0
  · rw [hf] at h0; cases h0

/-- A file that exists is still there, unchanged, after `checkFileOrCreate`
of any file. -/
theorem checkFileOrCreate_keeps (env : Env) (file content name : String) (fs : FS) (f : File)
    (hf : fs name = some f) : (checkFileOrCreate env file content fs).fs name = some f := by
  by_cases hne : name = file
  · subst hne
    rw [checkFileOrCreate_fs_present env name content fs f hf, hf]
  · rw [checkFileOrCreate_fs_other env file content name fs hne, hf]

/-- After a successful `checkFileOrCreate` on a missing file, the file holds
the content with mode 0644. -/
theorem checkFileOrCreate_created (env : Env) (file content : String) (fs : FS)
    (hf : fs file = none)
    (hret : (checkFileOrCreate env file content fs).ret = .returned none) :
    (checkFileOrCreate env file content fs).fs file = some ⟨content, 0o644⟩ := by
  rcases checkFileOrCreate_cases env file content fs with
    ⟨m, h⟩ | ⟨f, h0, h⟩ | ⟨e, h0, h⟩ | ⟨e, h0, h⟩ | ⟨h0, h⟩
  · rw [h] at hret; simp at hret
  · rw [hf] at h0; cases h0
  · rw [h] at hret; simp at hret
  · rw [h] at hret; simp at hret
  · rw [h]; exact set_same _ _ _

/-- The events of `checkFileOrCreate` are a probe of its file and, only when
the file is missing, a write of the content and a chmod. -/
theorem mem_checkFileOrCreate_trace (env : Env) (file content : String) (fs : FS) (ev : Event)
    (hev : ev ∈ (checkFileOrCreate env file content fs).trace) :
    (∃ err, ev = .stat file err) ∨
    (fs file = none ∧
      ((∃ err, ev = .write file content err) ∨ (∃ err, ev = .chmod file 0o644 err))) := by
  rcases checkFileOrCreate_cases env file content fs with
    ⟨m, h⟩ | ⟨f, h0, h⟩ | ⟨e, h0, h⟩ | ⟨e, h0, h⟩ | ⟨h0, h⟩ <;> rw [h] at hev <;>
    simp only [List.mem_cons, List.mem_singleton, List.not_mem_nil, or_false] at hev
  · exact Or.inl ⟨_, hev⟩
  · exact Or.inl ⟨_, hev⟩
  · rcases hev with hev | hev
    · exact Or.inl ⟨_, hev⟩
    · exact Or.inr ⟨h0, Or.inl ⟨_, hev⟩⟩
  · rcases hev with hev | hev | hev
    · exact Or.inl ⟨_, hev⟩
    · exact Or.inr ⟨h0, Or.inl ⟨_, hev⟩⟩
    · exact Or.inr ⟨h0, Or.inr ⟨_, hev⟩⟩
  · rcases hev with hev | hev | hev
    · exact Or.inl ⟨_, hev⟩
    · exact Or.inr ⟨h0, Or.inl ⟨_, hev⟩⟩
    · exact Or.inr ⟨h0, Or.inr ⟨_, hev⟩⟩

theorem andThen_ok (r : Run) (next : FS → Run) (h : r.ret = .returned none) :
    r.andThen next = ⟨(next r.fs).fs, r.trace ++ (next r.fs).trace, (next r.fs).ret⟩ := by
  simp [Run.andThen, h]

theorem andThen_error (r : Run) (next : FS → Run) (e : GoError)
    (h : r.ret = .returned (some e)) : r.andThen next = r := by
  simp [Run.andThen, h]

theorem andThen_panicked (r : Run) (next : FS → Run) (h : r.ret = .panicked) :
    r.andThen next = r := by
  simp [Run.andThen, h]


/-- The three ways the `go.mod` step can go. -/
theorem modStep_cases (env : Env) (modpath : String) (fs : FS) :
    (∃ m, modStep env modpath fs
        = ⟨fs, [.stat "go.mod" (some ⟨m, false⟩)], .returned (some ⟨m, false⟩)⟩) ∨
    (∃ f, fs "go.mod" = some f ∧
      modStep env modpath fs = ⟨fs, [.stat "go.mod" none], .returned none⟩) ∨
    (fs "go.mod" = none ∧ modStep env modpath fs
        = ⟨(env.runCmd ["go", "mod", "init", modpath] fs).1,
            [.stat "go.mod" (some (errNotExist "stat" "go.mod")),
              .exec ["go", "mod", "init", modpath] (env.runCmd ["go", "mod", "init", modpath] fs).2],
            .returned (env.runCmd ["go", "mod", "init", modpath] fs).2⟩) := by
  cases h : env.statFault "go.mod" with
  | some m => exact Or.inl ⟨m, checkFileOrDo_fault env _ _ fs m h⟩
  | none =>
    cases hf : fs "go.mod" with
    | some f => exact Or.inr (Or.inl ⟨f, rfl, checkFileOrDo_present env _ _ fs f h hf⟩)
    | none =>
      refine Or.inr (Or.inr ⟨rfl, ?_⟩)
      rw [modStep, checkFileOrDo_absent env _ _ fs h hf]
      rfl

theorem tidyStep_fs (env : Env) (fs : FS) :
    (tidyStep env fs).fs = (env.runCmd ["go", "mod", "tidy"] fs).1 := by
  unfold tidyStep
  split <;> rfl

theorem tidyStep_trace (env : Env) (fs : FS) :
    (tidyStep env fs).trace
      = [.exec ["go", "mod", "tidy"] (env.runCmd ["go", "mod", "tidy"] fs).2] := by
  unfold tidyStep
  split <;> simp [*]

theorem tidyStep_ret (env : Env) (fs : FS) :
    (tidyStep env fs).ret
      = .returned ((env.runCmd ["go", "mod", "tidy"] fs).2.map
          (fmtErrorf "failed to run command: ")) := by
  unfold tidyStep
  split <;> simp [*]

/-- Where a run of the four steps can stop, and what it is then. -/
theorem scaffold_cases (env : Env) (modpath appID appName : String) (fs : FS) :
    ((mainStep env appID fs).ret ≠ .returned none ∧
      scaffold env modpath appID appName fs = mainStep env appID fs) ∨
    ((mainStep env appID fs).ret = .returned none ∧
      (modStep env modpath (mainStep env appID fs).fs).ret ≠ .returned none ∧
      scaffold env modpath appID appName fs
        = ⟨(modStep env modpath (mainStep env appID fs).fs).fs,
            (mainStep env appID fs).trace ++ (modStep env modpath (mainStep env appID fs).fs).trace,
            (modStep env modpath (mainStep env appID fs).fs).ret⟩) ∨
    ((mainStep env appID fs).ret = .returned none ∧
      (modStep env modpath (mainStep env appID fs).fs).ret = .returned none ∧
      (tomlStep env appName appID (modStep env modpath (mainStep env appID fs).fs).fs).ret
        ≠ .returned none ∧
      scaffold env modpath appID appName fs
        = ⟨(tomlStep env appName appID (modStep env modpath (mainStep env appID fs).fs).fs).fs,
            (mainStep env appID fs).trace ++
              ((modStep env modpath (mainStep env appID fs).fs).trace ++
                (tomlStep env appName appID (modStep env modpath (mainStep env appID fs).fs).fs).trace),
            (tomlStep env appName appID (modStep env modpath (mainStep env appID fs).fs).fs).ret⟩) ∨
    ((mainStep env appID fs).ret = .returned none ∧
      (modStep env modpath (mainStep env appID fs).fs).ret = .returned none ∧
      (tomlStep env appName appID (modStep env modpath (mainStep env appID fs).fs).fs).ret
        = .returned none ∧
      scaffold env modpath appID appName fs
        = ⟨(tidyStep env
              (tomlStep env appName appID (modStep env modpath (mainStep env appID fs).fs).fs).fs).fs,
            (mainStep env appID fs).trace ++
              ((modStep env modpath (mainStep env appID fs).fs).trace ++
                ((tomlStep env appName appID (modStep env modpath (mainStep env appID fs).fs).fs).trace
                  ++ (tidyStep env (tomlStep env appName appID
                        (modStep env modpath (mainStep env appID fs).fs).fs).fs).trace)),
            (tidyStep env
              (tomlStep env appName appID (modStep env modpath (mainStep env appID fs).fs).fs).fs).ret⟩) := by
  have stop : ∀ (r : Run) (next : FS → Run), r.ret ≠ .returned none → r.andThen next = r := by
    intro r next h
    cases hr : r.ret with
    | panicked => exact andThen_panicked r next hr
    | returned err =>
      cases err with
      | none => exact absurd hr h
      | some e => exact andThen_error r next e hr
  unfold scaffold
  by_cases h1 : (mainStep env appID fs).ret = .returned none
  · rw [andThen_ok _ _ h1]
    by_cases h2 : (modStep env modpath (mainStep env appID fs).fs).ret = .returned none
    · rw [andThen_ok _ _ h2]
      by_cases h3 : (tomlStep env appName appID
          (modStep env modpath (mainStep env appID fs).fs).fs).ret = .returned none
      · rw [andThen_ok _ _ h3]
        exact Or.inr (Or.inr (Or.inr ⟨h1, h2, h3, rfl⟩))
      · rw [stop _ _ h3]
        exact Or.inr (Or.inr (Or.inl ⟨h1, h2, h3, rfl⟩))
    · rw [stop _ _ h2]
      exact Or.inr (Or.inl ⟨h1, h2, rfl⟩)
  · rw [stop _ _ h1]
    exact Or.inl ⟨h1, rfl⟩

/-- Either the working directory cannot be read and nothing is done, or the
run is the four steps on the resolved module path, identifier and name. -/
theorem initAction_cases (env : Env) (ctx : Context) (fs : FS) :
    (∃ e, resolveModpath env ctx = .error e ∧
      initAction env ctx fs = ⟨fs, [], .returned (some e)⟩) ∨
    (∃ m id nm, resolveModpath env ctx = .ok m ∧ resolveAppID ctx m = some id ∧
      resolveAppName ctx m = some nm ∧ initAction env ctx fs = scaffold env m id nm fs) := by
  cases hm : resolveModpath env ctx with
  | error e => exact Or.inl ⟨e, rfl, by simp [initAction, hm]⟩
  | ok m =>
    have hid : ∃ id, resolveAppID ctx m = some id := by
      unfold resolveAppID
      split
      · obtain ⟨h, s, _, hid⟩ := getAppID_eq m
        exact ⟨_, hid⟩
      · exact ⟨_, rfl⟩
    have hnm : ∃ nm, resolveAppName ctx m = some nm := by
      unfold resolveAppName
      split
      · obtain ⟨h, s, d, ds, _, _, hnm⟩ := getAppName_eq m
        exact ⟨_, hnm⟩
      · exact ⟨_, rfl⟩
    obtain ⟨id, hid⟩ := hid
    obtain ⟨nm, hnm⟩ := hnm
    exact Or.inr ⟨m, id, nm, rfl, hid, hnm, by simp [initAction, hm, hid, hnm]⟩


/-- Every event of the four steps is an event of one of them. -/
theorem mem_scaffold_trace (env : Env) (modpath appID appName : String) (fs : FS) (ev : Event)
    (hev : ev ∈ (scaffold env modpath appID appName fs).trace) :
    ev ∈ (mainStep env appID fs).trace ∨
    ((mainStep env appID fs).ret = .returned none ∧
      ev ∈ (modStep env modpath (mainStep env appID fs).fs).trace) ∨
    ((modStep env modpath (mainStep env appID fs).fs).ret = .returned none ∧
      ev ∈ (tomlStep env appName appID (modStep env modpath (mainStep env appID fs).fs).fs).trace) ∨
    ((modStep env modpath (mainStep env appID fs).fs).ret = .returned none ∧
      ev ∈ (tidyStep env
        (tomlStep env appName appID (modStep env modpath (mainStep env appID fs).fs).fs).fs).trace) := by
  rcases scaffold_cases env modpath appID appName fs with
    ⟨_, h⟩ | ⟨h1, _, h⟩ | ⟨h1, h2, _, h⟩ | ⟨h1, h2, _, h⟩ <;> rw [h] at hev <;>
    try simp only [List.mem_append] at hev
  · exact Or.inl hev
  · rcases hev with hev | hev
    · exact Or.inl hev
    · exact Or.inr (Or.inl ⟨h1, hev⟩)
  · rcases hev with hev | hev | hev
    · exact Or.inl hev
    · exact Or.inr (Or.inl ⟨h1, hev⟩)
    · exact Or.inr (Or.inr (Or.inl ⟨h2, hev⟩))
  · rcases hev with hev | hev | hev | hev
    · exact Or.inl hev
    · exact Or.inr (Or.inl ⟨h1, hev⟩)
    · exact Or.inr (Or.inr (Or.inl ⟨h2, hev⟩))
    · exact Or.inr (Or.inr (Or.inr ⟨h2, hev⟩))

/-- The events of the `go.mod` step are a probe of `go.mod` and, only when it
is missing, the command `go mod init modpath` with its own error, which is
then what the step returns. -/
theorem mem_modStep_trace (env : Env) (modpath : String) (fs : FS) (ev : Event)
    (hev : ev ∈ (modStep env modpath fs).trace) :
    (∃ err, ev = .stat "go.mod" err) ∨
    (fs "go.mod" = none ∧
      ev = .exec ["go", "mod", "init", modpath] (env.runCmd ["go", "mod", "init", modpath] fs).2 ∧
      (modStep env modpath fs).ret = .returned (env.runCmd ["go", "mod", "init", modpath] fs).2 ∧
      (modStep env modpath fs).fs = (env.runCmd ["go", "mod", "init", modpath] fs).1) := by
  rcases modStep_cases env modpath fs with ⟨m, h⟩ | ⟨f, _, h⟩ | ⟨h0, h⟩ <;> rw [h] at hev ⊢ <;>
    simp only [List.mem_cons, List.mem_singleton, List.not_mem_nil, or_false] at hev
  · exact Or.inl ⟨_, hev⟩
  · exact Or.inl ⟨_, hev⟩
  · rcases hev with hev | hev
    · exact Or.inl ⟨_, hev⟩
    · exact Or.inr ⟨h0, hev, rfl, rfl⟩

/-- The `go.mod` step keeps a file that the `go` tool does not touch. -/
theorem modStep_fs_of_untouched (env : Env) (modpath name : String) (fs : FS)
    (htool : ∀ argv fs0, (env.runCmd argv fs0).1 name = fs0 name) :
    (modStep env modpath fs).fs name = fs name := by
  rcases modStep_cases env modpath fs with ⟨m, h⟩ | ⟨f, _, h⟩ | ⟨_, h⟩ <;> rw [h]
  exact htool _ _

/-- A file that exists and that the `go` tool does not touch is still there,
unchanged, after the four steps. -/
theorem scaffold_keeps (env : Env) (modpath appID appName name : String) (fs : FS) (f : File)
    (htool : ∀ argv fs0, (env.runCmd argv fs0).1 name = fs0 name)
    (hf : fs name = some f) :
    (scaffold env modpath appID appName fs).fs name = some f := by
  have k1 : (mainStep env appID fs).fs name = some f :=
    checkFileOrCreate_keeps env _ _ name fs f hf
  have k2 : (modStep env modpath (mainStep env appID fs).fs).fs name = some f := by
    rw [modStep_fs_of_untouched env modpath name _ htool, k1]
  have k3 : (tomlStep env appName appID (modStep env modpath (mainStep env appID fs).fs).fs).fs name
      = some f := checkFileOrCreate_keeps env _ _ name _ f k2
  have k4 : (tidyStep env
      (tomlStep env appName appID (modStep env modpath (mainStep env appID fs).fs).fs).fs).fs name
      = some f := by rw [tidyStep_fs, htool, k3]
  rcases scaffold_cases env modpath appID appName fs with
    ⟨_, h⟩ | ⟨_, _, h⟩ | ⟨_, _, _, h⟩ | ⟨_, _, _, h⟩ <;> rw [h]
  · exact k1
  · exact k2
  · exact k3
  · exact k4

/-! ## The claims on the orchestrator -/

/-- C10: the existence policy of `checkFileOrDo`.  When the probe fails with
an error other than not-found, that error is returned and nothing else is
done; when the file exists, nil is returned and nothing else is done; when the
probe reports not-found, the result is that of one call of `cb` on the current
files.  Hence `checkFileOrCreate` attempts a write only on a missing file and
only with the given content, leaves the files alone when the file exists, and
returns the error of a failed write or chmod. -/
theorem checkFileOrDo_existence_policy (env : Env) (file : String) (cb : FS → Run) (fs : FS) :
    (∀ e, osStat env fs file = (none, some e) → e.isNotExist = false →
      checkFileOrDo env file cb fs = ⟨fs, [.stat file (some e)], .returned (some e)⟩) ∧
    (∀ f, osStat env fs file = (some f, none) →
      checkFileOrDo env file cb fs = ⟨fs, [.stat file none], .returned none⟩) ∧
    (∀ e, osStat env fs file = (none, some e) → e.isNotExist = true →
      checkFileOrDo env file cb fs
        = ⟨(cb fs).fs, .stat file (some e) :: (cb fs).trace, (cb fs).ret⟩) ∧
    ((∃ e, osStat env fs file = (none, some e) ∧ (e.isNotExist = true ↔
        env.statFault file = none ∧ fs file = none)) ∨
      (∃ f, osStat env fs file = (some f, none) ∧ fs file = some f)) ∧
    (∀ content c err,
      Event.write file c err ∈ (checkFileOrCreate env file content fs).trace →
        fs file = none ∧ c = content) ∧
    (∀ content f, fs file = some f →
      checkFileOrCreate env file content fs = ⟨fs, [.stat file none], .returned none⟩ ∨
      ∃ e, e.isNotExist = false ∧
        checkFileOrCreate env file content fs = ⟨fs, [.stat file (some e)], .returned (some e)⟩) ∧
    (∀ content e,
      Event.write file content (some e) ∈ (checkFileOrCreate env file content fs).trace →
        (checkFileOrCreate env file content fs).ret = .returned (some e)) ∧
    (∀ content mode e,
      Event.chmod file mode (some e) ∈ (checkFileOrCreate env file content fs).trace →
        (checkFileOrCreate env file content fs).ret = .returned (some e)) := by
  refine ⟨?_, ?_, ?_, ?_, ?_, ?_, ?_, ?_⟩
  · intro e h hne
    simp [checkFileOrDo, h, errorsIsNotExist, hne]
  · intro f h
    simp [checkFileOrDo, h, errorsIsNotExist]
  · intro e h hne
    simp [checkFileOrDo, h, errorsIsNotExist, hne]
  · unfold osStat
    cases h : env.statFault file with
    | some m => exact Or.inl ⟨_, rfl, by simp⟩
    | none =>
      cases hf : fs file with
      | some f => exact Or.inr ⟨f, rfl, rfl⟩
      | none => exact Or.inl ⟨_, rfl, by simp [errNotExist]⟩
  · intro content c err hev
    rcases mem_checkFileOrCreate_trace env file content fs _ hev with
      ⟨e, h⟩ | ⟨h0, ⟨e, h⟩ | ⟨e, h⟩⟩
    · cases h
    · injection h with _ hc _
      exact ⟨h0, hc⟩
    · cases h
  · intro content f hf
    cases h : env.statFault file with
    | some m => exact Or.inr ⟨_, rfl, checkFileOrCreate_fault env file content fs m h⟩
    | none => exact Or.inl (checkFileOrCreate_present env file content fs f h hf)
  · intro content e hev
    rcases checkFileOrCreate_cases env file content fs with
      ⟨m, h⟩ | ⟨f, _, h⟩ | ⟨e1, _, h⟩ | ⟨e1, _, h⟩ | ⟨_, h⟩ <;> rw [h] at hev ⊢ <;>
      simp at hev
    simp [hev]
  · intro content mode e hev
    rcases checkFileOrCreate_cases env file content fs with
      ⟨m, h⟩ | ⟨f, _, h⟩ | ⟨e1, _, h⟩ | ⟨e1, _, h⟩ | ⟨_, h⟩ <;> rw [h] at hev ⊢ <;>
      simp at hev
    simp [hev]


/-- A file that exists and that the `go` tool does not touch is not written
by the four steps. -/
theorem scaffold_no_write_of_present (env : Env) (modpath appID appName name : String) (fs : FS)
    (f : File) (htool : ∀ argv fs0, (env.runCmd argv fs0).1 name = fs0 name)
    (hf : fs name = some f) (c : String) (err : Option GoError) :
    Event.write name c err ∉ (scaffold env modpath appID appName fs).trace := by
  intro hev
  have k1 : (mainStep env appID fs).fs name = some f :=
    checkFileOrCreate_keeps env _ _ name fs f hf
  have k2 : (modStep env modpath (mainStep env appID fs).fs).fs name = some f := by
    rw [modStep_fs_of_untouched env modpath name _ htool, k1]
  rcases mem_scaffold_trace env modpath appID appName fs _ hev with h | ⟨_, h⟩ | ⟨_, h⟩ | ⟨_, h⟩
  · rcases mem_checkFileOrCreate_trace env _ _ fs _ h with ⟨e, h⟩ | ⟨h0, ⟨e, h⟩ | ⟨e, h⟩⟩
    · cases h
    · injection h with hn _ _
      rw [hn, h0] at hf
      cases hf
    · cases h
  · rcases mem_modStep_trace env modpath _ _ h with ⟨e, h⟩ | ⟨_, h, _⟩ <;> cases h
  · rcases mem_checkFileOrCreate_trace env _ _ _ _ h with ⟨e, h⟩ | ⟨h0, ⟨e, h⟩ | ⟨e, h⟩⟩
    · cases h
    · injection h with hn _ _
      rw [hn, h0] at k2
      cases k2
    · cases h
  · rw [tidyStep_trace] at h
    simp at h

/-- When `go.mod` exists, the four steps do not run `go mod init`. -/
theorem scaffold_no_init_of_present (env : Env) (modpath appID appName : String) (fs : FS)
    (g : File) (hg : fs "go.mod" = some g) (m : String) (err : Option GoError) :
    Event.exec ["go", "mod", "init", m] err ∉ (scaffold env modpath appID appName fs).trace := by
  intro hev
  have k1 : (mainStep env appID fs).fs "go.mod" = some g :=
    checkFileOrCreate_keeps env _ _ "go.mod" fs g hg
  rcases mem_scaffold_trace env modpath appID appName fs _ hev with h | ⟨_, h⟩ | ⟨_, h⟩ | ⟨_, h⟩
  · rcases mem_checkFileOrCreate_trace env _ _ fs _ h with ⟨e, h⟩ | ⟨h0, ⟨e, h⟩ | ⟨e, h⟩⟩ <;>
      cases h
  · rcases mem_modStep_trace env modpath _ _ h with ⟨e, h⟩ | ⟨h0, _⟩
    · cases h
    · rw [h0] at k1
      cases k1
  · rcases mem_checkFileOrCreate_trace env _ _ _ _ h with ⟨e, h⟩ | ⟨h0, ⟨e, h⟩ | ⟨e, h⟩⟩ <;>
      cases h
  · rw [tidyStep_trace] at h
    simp at h

/-- C5: with a `go` tool that touches neither `main.go` nor `FyneApp.toml`, a
`main.go` that exists before a run of `initAction` is the same file, content
and mode, after the run, and the run attempts no write of it, however the run
ends; the same holds of `FyneApp.toml`; and when `go.mod` exists before the
run, `go mod init` is not run. -/
theorem initAction_respects_existing_files (env : Env) (ctx : Context) (fs : FS)
    (htool : ∀ argv fs0, (env.runCmd argv fs0).1 "main.go" = fs0 "main.go" ∧
      (env.runCmd argv fs0).1 "FyneApp.toml" = fs0 "FyneApp.toml") :
    (∀ f, fs "main.go" = some f →
      (initAction env ctx fs).fs "main.go" = some f ∧
      ∀ c err, Event.write "main.go" c err ∉ (initAction env ctx fs).trace) ∧
    (∀ f, fs "FyneApp.toml" = some f →
      (initAction env ctx fs).fs "FyneApp.toml" = some f ∧
      ∀ c err, Event.write "FyneApp.toml" c err ∉ (initAction env ctx fs).trace) ∧
    (∀ g, fs "go.mod" = some g →
      ∀ m err, Event.exec ["go", "mod", "init", m] err ∉ (initAction env ctx fs).trace) := by
  rcases initAction_cases env ctx fs with ⟨e, _, h⟩ | ⟨m, id, nm, _, _, _, h⟩ <;> rw [h]
  · exact ⟨fun f hf => ⟨hf, fun _ _ => List.not_mem_nil _⟩,
      fun f hf => ⟨hf, fun _ _ => List.not_mem_nil _⟩, fun _ _ _ _ => List.not_mem_nil _⟩
  · refine ⟨fun f hf => ⟨?_, ?_⟩, fun f hf => ⟨?_, ?_⟩, fun g hg m' err => ?_⟩
    · exact scaffold_keeps env m id nm _ fs f (fun a b => (htool a b).1) hf
    · exact scaffold_no_write_of_present env m id nm _ fs f (fun a b => (htool a b).1) hf
    · exact scaffold_keeps env m id nm _ fs f (fun a b => (htool a b).2) hf
    · exact scaffold_no_write_of_present env m id nm _ fs f (fun a b => (htool a b).2) hf
    · exact scaffold_no_init_of_present env m id nm fs g hg m' err


theorem fakeGo_untouched (name : String) (hne : name ≠ "go.mod") (argv : List String)
    (fs0 : FS) : (fakeGo argv fs0).1 name = fs0 name := by
  unfold fakeGo
  split
  · exact set_other _ _ _ _ hne
  · rfl

theorem initAction_respects_existing_files_witness :
    (initAction fakeEnv ⟨[], "", ""⟩ ownFS).fs "main.go" = some ⟨"// mine\n", 0o600⟩ ∧
    (∀ c err, Event.write "main.go" c err ∉ (initAction fakeEnv ⟨[], "", ""⟩ ownFS).trace) ∧
    (∀ m err,
      Event.exec ["go", "mod", "init", m] err ∉ (initAction fakeEnv ⟨[], "", ""⟩ ownFS).trace) :=
  have h := initAction_respects_existing_files fakeEnv ⟨[], "", ""⟩ ownFS
    (fun argv fs0 => ⟨fakeGo_untouched "main.go" (by decide) argv fs0,
      fakeGo_untouched "FyneApp.toml" (by decide) argv fs0⟩)
  ⟨(h.1 ⟨"// mine\n", 0o600⟩ (by decide)).1, (h.1 ⟨"// mine\n", 0o600⟩ (by decide)).2,
    h.2.2 ⟨"module own\n", 0o644⟩ (by decide)⟩

/-- A run of the four steps in which `go mod init` failed: the first step
succeeded, `go.mod` was missing, and the run ended with the command. -/
theorem scaffold_of_init_failed (env : Env) (modpath appID appName : String) (fs : FS)
    (m : String) (e : GoError)
    (hev : Event.exec ["go", "mod", "init", m] (some e)
      ∈ (scaffold env modpath appID appName fs).trace) :
    m = modpath ∧ (mainStep env appID fs).ret = .returned none ∧
    (env.runCmd ["go", "mod", "init", modpath] (mainStep env appID fs).fs).2 = some e ∧
    scaffold env modpath appID appName fs
      = ⟨(env.runCmd ["go", "mod", "init", modpath] (mainStep env appID fs).fs).1,
          (mainStep env appID fs).trace ++
            [.stat "go.mod" (some (errNotExist "stat" "go.mod")),
              .exec ["go", "mod", "init", modpath] (some e)],
          .returned (some e)⟩ := by
  have key : ∀ ev, ev = Event.exec ["go", "mod", "init", m] (some e) →
      ev ∈ (modStep env modpath (mainStep env appID fs).fs).trace →
      m = modpath ∧
      (env.runCmd ["go", "mod", "init", modpath] (mainStep env appID fs).fs).2 = some e ∧
      modStep env modpath (mainStep env appID fs).fs
        = ⟨(env.runCmd ["go", "mod", "init", modpath] (mainStep env appID fs).fs).1,
            [.stat "go.mod" (some (errNotExist "stat" "go.mod")),
              .exec ["go", "mod", "init", modpath] (some e)],
            .returned (some e)⟩ := by
    intro ev hE h
    subst hE
    rcases modStep_cases env modpath (mainStep env appID fs).fs with
      ⟨x, hx⟩ | ⟨f, _, hx⟩ | ⟨_, hx⟩
    · rw [hx] at h; simp at h
    · rw [hx] at h; simp at h
    · rw [hx] at h
      simp only [List.mem_cons, List.mem_singleton, List.not_mem_nil, or_false] at h
      rcases h with h | h
      · cases h
      · injection h with h1 h2
        have hm : m = modpath := by simpa using h1
        refine ⟨hm, h2.symm, ?_⟩
        rw [hx, ← h2]
  have notMain : Event.exec ["go", "mod", "init", m] (some e) ∉ (mainStep env appID fs).trace := by
    intro h
    rcases mem_checkFileOrCreate_trace env _ _ fs _ h with ⟨x, h⟩ | ⟨_, ⟨x, h⟩ | ⟨x, h⟩⟩ <;> cases h
  have notToml : ∀ fs0, Event.exec ["go", "mod", "init", m] (some e)
      ∉ (tomlStep env appName appID fs0).trace := by
    intro fs0 h
    rcases mem_checkFileOrCreate_trace env _ _ fs0 _ h with ⟨x, h⟩ | ⟨_, ⟨x, h⟩ | ⟨x, h⟩⟩ <;> cases h
  have notTidy : ∀ fs0, Event.exec ["go", "mod", "init", m] (some e)
      ∉ (tidyStep env fs0).trace := by
    intro fs0 h
    rw [tidyStep_trace] at h
    simp at h
  rcases scaffold_cases env modpath appID appName fs with
    ⟨_, h⟩ | ⟨h1, _, h⟩ | ⟨h1, h2, _, h⟩ | ⟨h1, h2, _, h⟩
  · rw [h] at hev
    exact absurd hev notMain
  · rw [h] at hev
    simp only [List.mem_append] at hev
    rcases hev with hev | hev
    · exact absurd hev notMain
    · obtain ⟨hm, hr, hx⟩ := key _ rfl hev
      refine ⟨hm, h1, hr, ?_⟩
      rw [h, hx]
  · rw [h] at hev
    simp only [List.mem_append] at hev
    rcases hev with hev | hev | hev
    · exact absurd hev notMain
    · obtain ⟨_, _, hx⟩ := key _ rfl hev
      rw [hx] at h2
      cases h2
    · exact absurd hev (notToml _)
  · rw [h] at hev
    simp only [List.mem_append] at hev
    rcases hev with hev | hev | hev | hev
    · exact absurd hev notMain
    · obtain ⟨_, _, hx⟩ := key _ rfl hev
      rw [hx] at h2
      cases h2
    · exact absurd hev (notToml _)
    · exact absurd hev (notTidy _)

/-- C6: in a run of `initAction` in which `go.mod` is missing and
`go mod init` is run and fails with the error `e`, `initAction` returns `e`
itself; the run neither probes nor writes `FyneApp.toml` and does not run
`go mod tidy`; the files after the run are those the failed command left.
When that command touches neither `FyneApp.toml` nor `main.go`, the state of
`FyneApp.toml` is as before the run, and a `main.go` that was missing before
the run is there with the templated content. -/
theorem initAction_stops_when_module_init_fails (env : Env) (ctx : Context) (fs : FS)
    (m : String) (e : GoError) (_hmod : fs "go.mod" = none)
    (hfail : Event.exec ["go", "mod", "init", m] (some e) ∈ (initAction env ctx fs).trace) :
    (initAction env ctx fs).ret = .returned (some e) ∧
    resolveModpath env ctx = .ok m ∧
    (∀ err, Event.stat "FyneApp.toml" err ∉ (initAction env ctx fs).trace) ∧
    (∀ c err, Event.write "FyneApp.toml" c err ∉ (initAction env ctx fs).trace) ∧
    (∀ mode err, Event.chmod "FyneApp.toml" mode err ∉ (initAction env ctx fs).trace) ∧
    (∀ err, Event.exec ["go", "mod", "tidy"] err ∉ (initAction env ctx fs).trace) ∧
    ((∀ fs0, (env.runCmd ["go", "mod", "init", m] fs0).1 "FyneApp.toml" = fs0 "FyneApp.toml") →
      (initAction env ctx fs).fs "FyneApp.toml" = fs "FyneApp.toml") ∧
    ((∀ fs0, (env.runCmd ["go", "mod", "init", m] fs0).1 "main.go" = fs0 "main.go") →
      fs "main.go" = none →
      ∃ id, resolveAppID ctx m = some id ∧
        Event.write "main.go" (codeFmt (env.quote id)) none ∈ (initAction env ctx fs).trace ∧
        (initAction env ctx fs).fs "main.go" = some ⟨codeFmt (env.quote id), 0o644⟩) := by
  rcases initAction_cases env ctx fs with ⟨x, _, h⟩ | ⟨m0, id, nm, hm0, hid, _, h⟩
  · rw [h] at hfail
    exact absurd hfail (List.not_mem_nil _)
  · rw [h] at hfail ⊢
    obtain ⟨hm, h1, _, hs⟩ := scaffold_of_init_failed env m0 id nm fs m e hfail
    subst hm
    have inMain : ∀ ev, ev ∈ (scaffold env m id nm fs).trace →
        ev ∈ (mainStep env id fs).trace ∨
        ev = .stat "go.mod" (some (errNotExist "stat" "go.mod")) ∨
        ev = .exec ["go", "mod", "init", m] (some e) := by
      intro ev hev
      rw [hs] at hev
      simpa using hev
    have onMain : ∀ ev, ev ∈ (mainStep env id fs).trace →
        (∃ err, ev = .stat "main.go" err) ∨ (∃ c err, ev = .write "main.go" c err) ∨
        (∃ mode err, ev = .chmod "main.go" mode err) := by
      intro ev hev
      rcases mem_checkFileOrCreate_trace env _ _ fs _ hev with ⟨x, h⟩ | ⟨_, ⟨x, h⟩ | ⟨x, h⟩⟩
      · exact Or.inl ⟨_, h⟩
      · exact Or.inr (Or.inl ⟨_, _, h⟩)
      · exact Or.inr (Or.inr ⟨_, _, h⟩)
    have noEvent : ∀ ev, ev ∈ (scaffold env m id nm fs).trace →
        (∀ err, ev ≠ .stat "FyneApp.toml" err) ∧ (∀ c err, ev ≠ .write "FyneApp.toml" c err) ∧
        (∀ mode err, ev ≠ .chmod "FyneApp.toml" mode err) ∧
        (∀ err, ev ≠ .exec ["go", "mod", "tidy"] err) := by
      intro ev hev
      rcases inMain ev hev with hm | hm | hm
      · rcases onMain ev hm with ⟨x, hx⟩ | ⟨x, y, hx⟩ | ⟨x, y, hx⟩ <;> subst hx <;> simp
      · subst hm; simp
      · subst hm; simp
    refine ⟨by rw [hs], hm0, fun err hev => (noEvent _ hev).1 err rfl,
      fun c err hev => (noEvent _ hev).2.1 c err rfl,
      fun mode err hev => (noEvent _ hev).2.2.1 mode err rfl,
      fun err hev => (noEvent _ hev).2.2.2 err rfl, ?_, ?_⟩
    · intro htool
      rw [hs]
      show (env.runCmd ["go", "mod", "init", m] (mainStep env id fs).fs).1 "FyneApp.toml" = _
      rw [htool]
      exact checkFileOrCreate_fs_other env _ _ _ fs (by decide)
    · intro htool hmain
      refine ⟨id, hid, ?_, ?_⟩
      · have hc := checkFileOrCreate_cases env "main.go" (codeFmt (env.quote id)) fs
        have h1' : (checkFileOrCreate env "main.go" (codeFmt (env.quote id)) fs).ret
            = .returned none := h1
        rw [hs]
        show _ ∈ (checkFileOrCreate env "main.go" (codeFmt (env.quote id)) fs).trace ++ _
        rcases hc with ⟨x, hx⟩ | ⟨f, h0, hx⟩ | ⟨x, h0, hx⟩ | ⟨x, h0, hx⟩ | ⟨h0, hx⟩
        · rw [hx] at h1'; simp at h1'
        · rw [hmain] at h0; cases h0
        · rw [hx] at h1'; simp at h1'
        · rw [hx] at h1'; simp at h1'
        · rw [hx]; simp
      · rw [hs]
        show (env.runCmd ["go", "mod", "init", m] (mainStep env id fs).fs).1 "main.go" = _
        rw [htool]
        exact checkFileOrCreate_created env _ _ fs hmain h1

theorem initAction_stops_when_module_init_fails_witness :
    (initAction failingEnv ⟨["com.example/myapp"], "", ""⟩ emptyFS).ret
      = .returned (some ⟨"exit status 1", false⟩) ∧
    (∀ c err, Event.write "FyneApp.toml" c err
      ∉ (initAction failingEnv ⟨["com.example/myapp"], "", ""⟩ emptyFS).trace) ∧
    (∀ err, Event.exec ["go", "mod", "tidy"] err
      ∉ (initAction failingEnv ⟨["com.example/myapp"], "", ""⟩ emptyFS).trace) ∧
    (initAction failingEnv ⟨["com.example/myapp"], "", ""⟩ emptyFS).fs "FyneApp.toml" = none :=
  have h := initAction_stops_when_module_init_fails failingEnv ⟨["com.example/myapp"], "", ""⟩
    emptyFS "com.example/myapp" ⟨"exit status 1", false⟩ rfl (by decide)
  ⟨h.1, h.2.2.2.1, h.2.2.2.2.2.1, h.2.2.2.2.2.2.1 (fun _ => rfl)⟩


theorem takeWhile_append_cons_of_all (p : Char → Bool) (l r : List Char) (a : Char)
    (hl : ∀ x ∈ l, p x = true) (ha : p a = false) : (l ++ a :: r).takeWhile p = l := by
  induction l with
  | nil => simp [List.takeWhile, ha]
  | cons x l ih =>
    have hx : p x = true := hl x (List.mem_cons_self x l)
    simp only [List.cons_append, List.takeWhile_cons, hx, if_true]
    rw [ih (fun y hy => hl y (List.mem_cons_of_mem x hy))]

/-- The model of `filepath.Base` returns the last element of a path. -/
theorem filepathBase_dir_name (dir name : String) (hne : name ≠ "")
    (hs : '/' ∉ name.data) : filepathBase (dir ++ "/" ++ name) = name := by
  have hdata : (dir ++ "/" ++ name).data = dir.data ++ '/' :: name.data := by
    simp [String.data_append]
  have hnd : name.data ≠ [] := fun h => hne (String.ext h)
  have hpath : dir ++ "/" ++ name ≠ "" := by
    intro h
    have := congrArg String.data h
    rw [hdata] at this
    simp at this
  unfold filepathBase
  rw [if_neg hpath, hdata]
  have hrev : (dir.data ++ '/' :: name.data).reverse
      = name.data.reverse ++ '/' :: dir.data.reverse := by simp
  rw [hrev]
  cases hr : name.data.reverse with
  | nil => exact absurd (List.reverse_eq_nil_iff.mp hr) hnd
  | cons c cs =>
    have hmem : ∀ x ∈ c :: cs, x ≠ '/' := by
      intro x hx h
      rw [← hr, List.mem_reverse] at hx
      exact hs (h ▸ hx)
    have hc : c ≠ '/' := hmem c (List.mem_cons_self c cs)
    have hdrop : List.dropWhile (fun c => decide (c = '/')) ((c :: cs) ++ '/' :: dir.data.reverse)
        = (c :: cs) ++ '/' :: dir.data.reverse := by
      simp [List.dropWhile, hc]
    have htake : List.takeWhile (fun c => decide (c ≠ '/')) ((c :: cs) ++ '/' :: dir.data.reverse)
        = c :: cs :=
      takeWhile_append_cons_of_all _ _ _ _ (fun x hx => by simpa using hmem x hx) (by simp)
    simp only [hdrop, htake]
    rw [← hr, List.reverse_reverse, if_neg hnd]

/-- C9, amended: a non-empty first argument is the module path, unchanged;
with no such argument, an error of `os.Getwd` is returned with no file probed
or written; with no such argument and the working directory `wd`, the module
path is `filepath.Base(wd)`, the last element of `wd`, except that it is
`example` when `wd` is empty or `.`; for the root `/` it is `/`.  The resolved
module path is the one the four steps run on. -/
theorem resolveModpath_explicit_or_base_of_wd (env : Env) (ctx : Context) (fs : FS) :
    (∀ a rest, ctx.args = a :: rest → a ≠ "" → resolveModpath env ctx = .ok a) ∧
    (∀ e, ctx.args.getD 0 "" = "" → env.getwd = .error e →
      resolveModpath env ctx = .error e ∧
      initAction env ctx fs = ⟨fs, [], .returned (some e)⟩) ∧
    (∀ wd, ctx.args.getD 0 "" = "" → env.getwd = .ok wd →
      resolveModpath env ctx
        = .ok (if wd = "" ∨ wd = "." then "example" else filepathBase wd)) ∧
    (∀ dir name, name ≠ "" → '/' ∉ name.data → filepathBase (dir ++ "/" ++ name) = name) ∧
    filepathBase "/" = "/" ∧
    (∀ m, resolveModpath env ctx = .ok m →
      ∃ id nm, resolveAppID ctx m = some id ∧ resolveAppName ctx m = some nm ∧
        initAction env ctx fs = scaffold env m id nm fs) := by
  refine ⟨?_, ?_, ?_, filepathBase_dir_name, by decide, ?_⟩
  · intro a rest ha hne
    simp [resolveModpath, ha, hne]
  · intro e ha hwd
    have hr : resolveModpath env ctx = .error e := by
      simp only [resolveModpath, ha, hwd, if_true]
    exact ⟨hr, by simp [initAction, hr]⟩
  · intro wd ha hwd
    by_cases h : wd = "" ∨ wd = "."
    · rw [if_pos h]
      have h' : ¬ (wd ≠ "" ∧ wd ≠ ".") := by
        rcases h with h | h <;> simp [h]
      simp only [resolveModpath, ha, hwd, if_true, if_neg h']
    · rw [if_neg h]
      have h' : wd ≠ "" ∧ wd ≠ "." := by
        constructor
        · exact fun e => h (Or.inl e)
        · exact fun e => h (Or.inr e)
      simp only [resolveModpath, ha, hwd, if_true, if_pos h']
  · intro m hm
    rcases initAction_cases env ctx fs with ⟨e, he, _⟩ | ⟨m0, id, nm, hm0, hid, hnm, h⟩
    · rw [hm] at he; cases he
    · rw [hm] at hm0
      cases hm0
      exact ⟨id, nm, hid, hnm, h⟩

/-- C9 as stated fails at the root: with no argument and working directory
`/`, the module path is `/`, not the placeholder, and `go mod init /` is run. -/
theorem resolveModpath_root_is_not_placeholder :
    rootEnv.getwd = .ok "/" ∧
    resolveModpath rootEnv ⟨[], "", ""⟩ = .ok "/" ∧
    resolveModpath rootEnv ⟨[], "", ""⟩ ≠ .ok "example" ∧
    Event.exec ["go", "mod", "init", "/"] none
      ∈ (initAction rootEnv ⟨[], "", ""⟩ emptyFS).trace := by
  have h2 : resolveModpath rootEnv ⟨[], "", ""⟩ = .ok "/" := by
    simp only [resolveModpath, rootEnv, List.getD_nil, if_true]
    rw [if_pos (by decide)]
    exact congrArg Except.ok (by decide)
  refine ⟨rfl, h2, ?_, by decide⟩
  intro h
  rw [h2] at h
  injection h with h
  exact absurd h (by decide)

theorem resolveModpath_explicit_or_base_of_wd_witness :
    resolveModpath fakeEnv ⟨["com.example/myapp"], "", ""⟩ = .ok "com.example/myapp" ∧
    resolveModpath fakeEnv ⟨[], "", ""⟩ = .ok "myapp" :=
  ⟨(resolveModpath_explicit_or_base_of_wd fakeEnv ⟨["com.example/myapp"], "", ""⟩ emptyFS).1
      "com.example/myapp" [] rfl (by decide),
    (resolveModpath_explicit_or_base_of_wd fakeEnv ⟨[], "", ""⟩ emptyFS).2.2.1
      "/home/u/myapp" rfl rfl⟩


/-- The four steps when the first three succeed. -/
theorem scaffold_eq_of_steps (env : Env) (modpath appID appName : String) (fs : FS)
    (r1 r2 r3 : Run)
    (h1 : mainStep env appID fs = r1) (hr1 : r1.ret = .returned none)
    (h2 : modStep env modpath r1.fs = r2) (hr2 : r2.ret = .returned none)
    (h3 : tomlStep env appName appID r2.fs = r3) (hr3 : r3.ret = .returned none) :
    scaffold env modpath appID appName fs
      = ⟨(tidyStep env r3.fs).fs,
          r1.trace ++ (r2.trace ++ (r3.trace ++ (tidyStep env r3.fs).trace)),
          (tidyStep env r3.fs).ret⟩ := by
  subst h1
  subst h2
  subst h3
  unfold scaffold
  rw [andThen_ok _ _ hr1, andThen_ok _ _ hr2, andThen_ok _ _ hr3]

theorem initAction_eq_scaffold (env : Env) (ctx : Context) (m id nm : String)
    (hm : resolveModpath env ctx = .ok m) (hid : resolveAppID ctx m = some id)
    (hnm : resolveAppName ctx m = some nm) (fs : FS) :
    initAction env ctx fs = scaffold env m id nm fs := by
  simp [initAction, hm, hid, hnm]

/-- The four steps in a directory without the three files, when no I/O fails
and `go mod init`, run without a `go.mod`, succeeds and touches neither
`main.go` nor `FyneApp.toml`. -/
theorem scaffold_fresh (env : Env) (m id nm : String) (fs : FS)
    (hio : ∀ file ∈ ["main.go", "go.mod", "FyneApp.toml"],
      env.statFault file = none ∧ env.writeFault file = none ∧ env.chmodFault file = none)
    (hinit : ∀ fs0, fs0 "go.mod" = none →
      (env.runCmd ["go", "mod", "init", m] fs0).2 = none ∧
      (env.runCmd ["go", "mod", "init", m] fs0).1 "main.go" = fs0 "main.go" ∧
      (env.runCmd ["go", "mod", "init", m] fs0).1 "FyneApp.toml" = fs0 "FyneApp.toml")
    (hmain : fs "main.go" = none) (hmod : fs "go.mod" = none)
    (htoml : fs "FyneApp.toml" = none) :
    scaffold env m id nm fs
      = ⟨(tidyStep env (((env.runCmd ["go", "mod", "init", m]
              (fs.set "main.go" ⟨codeFmt (env.quote id), 0o644⟩)).1).set "FyneApp.toml"
              ⟨tomlFmt (env.quote nm) (env.quote id), 0o644⟩)).fs,
          [.stat "main.go" (some (errNotExist "stat" "main.go")),
            .write "main.go" (codeFmt (env.quote id)) none,
            .chmod "main.go" 0o644 none,
            .stat "go.mod" (some (errNotExist "stat" "go.mod")),
            .exec ["go", "mod", "init", m] none,
            .stat "FyneApp.toml" (some (errNotExist "stat" "FyneApp.toml")),
            .write "FyneApp.toml" (tomlFmt (env.quote nm) (env.quote id)) none,
            .chmod "FyneApp.toml" 0o644 none] ++
            (tidyStep env (((env.runCmd ["go", "mod", "init", m]
              (fs.set "main.go" ⟨codeFmt (env.quote id), 0o644⟩)).1).set "FyneApp.toml"
              ⟨tomlFmt (env.quote nm) (env.quote id), 0o644⟩)).trace,
          (tidyStep env (((env.runCmd ["go", "mod", "init", m]
              (fs.set "main.go" ⟨codeFmt (env.quote id), 0o644⟩)).1).set "FyneApp.toml"
              ⟨tomlFmt (env.quote nm) (env.quote id), 0o644⟩)).ret⟩ := by
  obtain ⟨hs1, hw1, hc1⟩ := hio "main.go" (by simp)
  obtain ⟨hs2, _, _⟩ := hio "go.mod" (by simp)
  obtain ⟨hs3, hw3, hc3⟩ := hio "FyneApp.toml" (by simp)
  have e1 := checkFileOrCreate_creates env "main.go" (codeFmt (env.quote id)) fs hs1 hmain hw1 hc1
  have hmod1 : (fs.set "main.go" ⟨codeFmt (env.quote id), 0o644⟩) "go.mod" = none := by
    rw [set_other _ _ _ _ (by decide), hmod]
  have e2 : modStep env m (fs.set "main.go" ⟨codeFmt (env.quote id), 0o644⟩)
      = ⟨(env.runCmd ["go", "mod", "init", m]
            (fs.set "main.go" ⟨codeFmt (env.quote id), 0o644⟩)).1,
          [.stat "go.mod" (some (errNotExist "stat" "go.mod")),
            .exec ["go", "mod", "init", m] none],
          .returned none⟩ := by
    rw [modStep, checkFileOrDo_absent env _ _ _ hs2 hmod1]
    simp [execRun, (hinit _ hmod1).1]
  have htoml2 : (env.runCmd ["go", "mod", "init", m]
      (fs.set "main.go" ⟨codeFmt (env.quote id), 0o644⟩)).1 "FyneApp.toml" = none := by
    rw [(hinit _ hmod1).2.2, set_other _ _ _ _ (by decide), htoml]
  have e3 := checkFileOrCreate_creates env "FyneApp.toml" (tomlFmt (env.quote nm) (env.quote id))
    _ hs3 htoml2 hw3 hc3
  rw [scaffold_eq_of_steps env m id nm fs _ _ _ e1 rfl e2 rfl e3 rfl]
  rfl

/-- The four steps in a directory that has the three files, when no probe
fails: three probes, then `go mod tidy`. -/
theorem scaffold_all_present (env : Env) (m id nm : String) (fs : FS) (a b c : File)
    (hio : ∀ file ∈ ["main.go", "go.mod", "FyneApp.toml"], env.statFault file = none)
    (hmain : fs "main.go" = some a) (hmod : fs "go.mod" = some b)
    (htoml : fs "FyneApp.toml" = some c) :
    scaffold env m id nm fs
      = ⟨(tidyStep env fs).fs,
          [.stat "main.go" none, .stat "go.mod" none, .stat "FyneApp.toml" none] ++
            (tidyStep env fs).trace,
          (tidyStep env fs).ret⟩ := by
  have e1 := checkFileOrCreate_present env "main.go" (codeFmt (env.quote id)) fs a
    (hio _ (by simp)) hmain
  have e2 : modStep env m fs = ⟨fs, [.stat "go.mod" none], .returned none⟩ :=
    checkFileOrDo_present env _ _ fs b (hio _ (by simp)) hmod
  have e3 := checkFileOrCreate_present env "FyneApp.toml"
    (tomlFmt (env.quote nm) (env.quote id)) fs c (hio _ (by simp)) htoml
  rw [scaffold_eq_of_steps env m id nm fs _ _ _ e1 rfl e2 rfl e3 rfl]
  rfl


/-- C7, amended: idempotence of `initAction`.  Start in a directory with none
of `main.go`, `go.mod`, `FyneApp.toml`; let the module path be resolved and no
probe, write or chmod of these files fail; let `go mod init`, run without a
`go.mod`, succeed, leave a `go.mod` and touch neither `main.go` nor
`FyneApp.toml`; let `go mod tidy`, run with a `go.mod`, succeed, leave a
`go.mod` and touch neither `main.go` nor `FyneApp.toml`.  Then both runs
return nil; after the second run `main.go` and `FyneApp.toml` are exactly as
after the first, and `go.mod` exists after both; the second run is three
probes followed by one `go mod tidy`, so it writes nothing and does not run
`go mod init`, and the files it leaves are those `go mod tidy` leaves on the
files of the first run, hence `go.mod` too is as after the first run when that
`go mod tidy` leaves it unchanged; the first run creates `main.go`, runs
`go mod init`, creates `FyneApp.toml` and runs `go mod tidy` once. -/
theorem initAction_twice_second_run_only_tidies (env : Env) (ctx : Context) (fs : FS)
    (m : String) (hm : resolveModpath env ctx = .ok m)
    (hio : ∀ file ∈ ["main.go", "go.mod", "FyneApp.toml"],
      env.statFault file = none ∧ env.writeFault file = none ∧ env.chmodFault file = none)
    (hinit : ∀ fs0, fs0 "go.mod" = none →
      (env.runCmd ["go", "mod", "init", m] fs0).2 = none ∧
      ((env.runCmd ["go", "mod", "init", m] fs0).1 "go.mod").isSome = true ∧
      (env.runCmd ["go", "mod", "init", m] fs0).1 "main.go" = fs0 "main.go" ∧
      (env.runCmd ["go", "mod", "init", m] fs0).1 "FyneApp.toml" = fs0 "FyneApp.toml")
    (htidy : ∀ fs0, (fs0 "go.mod").isSome = true →
      (env.runCmd ["go", "mod", "tidy"] fs0).2 = none ∧
      ((env.runCmd ["go", "mod", "tidy"] fs0).1 "go.mod").isSome = true ∧
      (env.runCmd ["go", "mod", "tidy"] fs0).1 "main.go" = fs0 "main.go" ∧
      (env.runCmd ["go", "mod", "tidy"] fs0).1 "FyneApp.toml" = fs0 "FyneApp.toml")
    (hmain : fs "main.go" = none) (hmod : fs "go.mod" = none)
    (htoml : fs "FyneApp.toml" = none) :
    (initAction env ctx fs).ret = .returned none ∧
    (initAction env ctx (initAction env ctx fs).fs).ret = .returned none ∧
    (∀ file ∈ ["main.go", "FyneApp.toml"],
      (initAction env ctx (initAction env ctx fs).fs).fs file = (initAction env ctx fs).fs file ∧
      ((initAction env ctx fs).fs file).isSome = true) ∧
    ((initAction env ctx fs).fs "go.mod").isSome = true ∧
    ((initAction env ctx (initAction env ctx fs).fs).fs "go.mod").isSome = true ∧
    (initAction env ctx (initAction env ctx fs).fs).fs
      = (env.runCmd ["go", "mod", "tidy"] (initAction env ctx fs).fs).1 ∧
    ((env.runCmd ["go", "mod", "tidy"] (initAction env ctx fs).fs).1 "go.mod"
        = (initAction env ctx fs).fs "go.mod" →
      (initAction env ctx (initAction env ctx fs).fs).fs "go.mod"
        = (initAction env ctx fs).fs "go.mod") ∧
    (initAction env ctx (initAction env ctx fs).fs).trace
      = [.stat "main.go" none, .stat "go.mod" none, .stat "FyneApp.toml" none,
          .exec ["go", "mod", "tidy"] none] ∧
    (∀ file c err, Event.write file c err
      ∉ (initAction env ctx (initAction env ctx fs).fs).trace) ∧
    (∀ argv err, Event.exec argv err ∈ (initAction env ctx (initAction env ctx fs).fs).trace →
      argv = ["go", "mod", "tidy"]) ∧
    (initAction env ctx (initAction env ctx fs).fs).trace.count (.exec ["go", "mod", "tidy"] none)
      = 1 ∧
    (initAction env ctx fs).trace.count (.exec ["go", "mod", "tidy"] none) = 1 ∧
    (∃ id nm, resolveAppID ctx m = some id ∧ resolveAppName ctx m = some nm ∧
      (initAction env ctx fs).fs "main.go" = some ⟨codeFmt (env.quote id), 0o644⟩ ∧
      (initAction env ctx fs).fs "FyneApp.toml"
        = some ⟨tomlFmt (env.quote nm) (env.quote id), 0o644⟩ ∧
      (initAction env ctx fs).trace
        = [.stat "main.go" (some (errNotExist "stat" "main.go")),
            .write "main.go" (codeFmt (env.quote id)) none,
            .chmod "main.go" 0o644 none,
            .stat "go.mod" (some (errNotExist "stat" "go.mod")),
            .exec ["go", "mod", "init", m] none,
            .stat "FyneApp.toml" (some (errNotExist "stat" "FyneApp.toml")),
            .write "FyneApp.toml" (tomlFmt (env.quote nm) (env.quote id)) none,
            .chmod "FyneApp.toml" 0o644 none,
            .exec ["go", "mod", "tidy"] none]) := by
  rcases initAction_cases env ctx fs with ⟨e, he, _⟩ | ⟨m0, id, nm, hm0, hid, hnm, _⟩
  · rw [hm] at he; cases he
  rw [hm] at hm0
  cases hm0
  have hrun : ∀ fs0, initAction env ctx fs0 = scaffold env m id nm fs0 :=
    initAction_eq_scaffold env ctx m id nm hm hid hnm
  have ht1 : ∀ fs0, (fs0 "go.mod").isSome = true →
      (tidyStep env fs0).trace = [.exec ["go", "mod", "tidy"] none] := by
    intro fs0 hg; rw [tidyStep_trace, (htidy fs0 hg).1]
  have ht2 : ∀ fs0, (fs0 "go.mod").isSome = true →
      (tidyStep env fs0).ret = .returned none := by
    intro fs0 hg; rw [tidyStep_ret, (htidy fs0 hg).1]; rfl
  have hmod1 : (fs.set "main.go" ⟨codeFmt (env.quote id), 0o644⟩) "go.mod" = none := by
    rw [set_other _ _ _ _ (by decide), hmod]
  have hg3 : ((((env.runCmd ["go", "mod", "init", m]
      (fs.set "main.go" ⟨codeFmt (env.quote id), 0o644⟩)).1).set "FyneApp.toml"
      ⟨tomlFmt (env.quote nm) (env.quote id), 0o644⟩) "go.mod").isSome = true := by
    rw [set_other _ _ _ _ (by decide)]
    exact (hinit _ hmod1).2.1
  have h1 := scaffold_fresh env m id nm fs hio
    (fun fs0 h0 => ⟨(hinit fs0 h0).1, (hinit fs0 h0).2.2⟩) hmain hmod htoml
  have f1 : (scaffold env m id nm fs).fs "main.go" = some ⟨codeFmt (env.quote id), 0o644⟩ := by
    rw [h1]
    show (tidyStep env _).fs "main.go" = _
    rw [tidyStep_fs, (htidy _ hg3).2.2.1, set_other _ _ _ _ (by decide),
      (hinit _ hmod1).2.2.1, set_same]
  have f2 : ((scaffold env m id nm fs).fs "go.mod").isSome = true := by
    rw [h1]
    show ((tidyStep env _).fs "go.mod").isSome = true
    rw [tidyStep_fs]
    exact (htidy _ hg3).2.1
  have f3 : (scaffold env m id nm fs).fs "FyneApp.toml"
      = some ⟨tomlFmt (env.quote nm) (env.quote id), 0o644⟩ := by
    rw [h1]
    show (tidyStep env _).fs "FyneApp.toml" = _
    rw [tidyStep_fs, (htidy _ hg3).2.2.2, set_same]
  obtain ⟨b, hb⟩ := Option.isSome_iff_exists.mp f2
  have h2 := scaffold_all_present env m id nm (scaffold env m id nm fs).fs _ b _
    (fun file hf => (hio file hf).1) f1 hb f3
  have tr1 : (scaffold env m id nm fs).trace
      = [.stat "main.go" (some (errNotExist "stat" "main.go")),
          .write "main.go" (codeFmt (env.quote id)) none,
          .chmod "main.go" 0o644 none,
          .stat "go.mod" (some (errNotExist "stat" "go.mod")),
          .exec ["go", "mod", "init", m] none,
          .stat "FyneApp.toml" (some (errNotExist "stat" "FyneApp.toml")),
          .write "FyneApp.toml" (tomlFmt (env.quote nm) (env.quote id)) none,
          .chmod "FyneApp.toml" 0o644 none,
          .exec ["go", "mod", "tidy"] none] := by
    rw [h1]
    show _ ++ (tidyStep env _).trace = _
    rw [ht1 _ hg3]
    rfl
  have tr2 : (scaffold env m id nm (scaffold env m id nm fs).fs).trace
      = [.stat "main.go" none, .stat "go.mod" none, .stat "FyneApp.toml" none,
          .exec ["go", "mod", "tidy"] none] := by
    rw [h2]
    show _ ++ (tidyStep env _).trace = _
    rw [ht1 _ f2]
    rfl
  have fs2 : (scaffold env m id nm (scaffold env m id nm fs).fs).fs
      = (env.runCmd ["go", "mod", "tidy"] (scaffold env m id nm fs).fs).1 := by
    rw [h2]
    exact tidyStep_fs env _
  simp only [hrun]
  refine ⟨?_, ?_, ?_, f2, ?_, fs2, ?_, tr2, ?_, ?_, ?_, ?_, id, nm, hid, hnm, f1, f3, tr1⟩
  · rw [h1]; exact ht2 _ hg3
  · rw [h2]; exact ht2 _ f2
  · intro file hf
    simp only [List.mem_cons, List.mem_singleton, List.not_mem_nil, or_false] at hf
    rcases hf with hf | hf <;> subst hf
    · exact ⟨by rw [fs2]; exact (htidy _ f2).2.2.1, by rw [f1]; rfl⟩
    · exact ⟨by rw [fs2]; exact (htidy _ f2).2.2.2, by rw [f3]; rfl⟩
  · rw [fs2]; exact (htidy _ f2).2.1
  · intro h
    rw [fs2]; exact h
  · intro file c err hev
    rw [tr2] at hev
    simp at hev
  · intro argv err hev
    rw [tr2] at hev
    simp at hev
    exact hev.1
  · rw [tr2]
    simp [List.count_cons]
  · rw [tr1]
    simp [List.count_cons]

theorem moduleGo_init (m : String) (fs0 : FS) (h : fs0 "go.mod" = none) :
    (moduleGo ["go", "mod", "init", m] fs0).2 = none ∧
    ((moduleGo ["go", "mod", "init", m] fs0).1 "go.mod").isSome = true ∧
    (moduleGo ["go", "mod", "init", m] fs0).1 "main.go" = fs0 "main.go" ∧
    (moduleGo ["go", "mod", "init", m] fs0).1 "FyneApp.toml" = fs0 "FyneApp.toml" := by
  simp [moduleGo, h, FS.set]

theorem moduleGo_tidy (fs0 : FS) (h : (fs0 "go.mod").isSome = true) :
    (moduleGo ["go", "mod", "tidy"] fs0).2 = none ∧
    ((moduleGo ["go", "mod", "tidy"] fs0).1 "go.mod").isSome = true ∧
    (moduleGo ["go", "mod", "tidy"] fs0).1 "main.go" = fs0 "main.go" ∧
    (moduleGo ["go", "mod", "tidy"] fs0).1 "FyneApp.toml" = fs0 "FyneApp.toml" := by
  obtain ⟨f, hf⟩ := Option.isSome_iff_exists.mp h
  simp [moduleGo, hf, FS.set]

theorem initAction_twice_second_run_only_tidies_witness :
    (initAction moduleEnv ⟨["com.example/myapp"], "", ""⟩ emptyFS).ret = .returned none ∧
    (initAction moduleEnv ⟨["com.example/myapp"], "", ""⟩
      (initAction moduleEnv ⟨["com.example/myapp"], "", ""⟩ emptyFS).fs).trace
      = [.stat "main.go" none, .stat "go.mod" none, .stat "FyneApp.toml" none,
          .exec ["go", "mod", "tidy"] none] ∧
    (initAction moduleEnv ⟨["com.example/myapp"], "", ""⟩
      (initAction moduleEnv ⟨["com.example/myapp"], "", ""⟩ emptyFS).fs).fs "go.mod"
      = (initAction moduleEnv ⟨["com.example/myapp"], "", ""⟩ emptyFS).fs "go.mod" :=
  have h := initAction_twice_second_run_only_tidies moduleEnv ⟨["com.example/myapp"], "", ""⟩
    emptyFS "com.example/myapp" rfl (fun _ _ => ⟨rfl, rfl, rfl⟩)
    (fun fs0 h0 => moduleGo_init "com.example/myapp" fs0 h0)
    (fun fs0 h0 => moduleGo_tidy fs0 h0) rfl rfl rfl
  ⟨h.1, h.2.2.2.2.2.2.2.1, h.2.2.2.2.2.2.1 (by decide)⟩

/-- C7 as stated fails.  The tool `appendingGo` creates `go.mod` on init,
succeeds on init and on tidy and touches no other scaffold file, yet after the
second run from the empty directory `go.mod` is not as after the first run:
the second `go mod tidy` appended to it again.  The tool `removingGo` meets
the same conditions and the second run runs `go mod init` again.  And with
the tool `fakeGo`, on a disk where writing `main.go` fails, the first run does
not run `go mod tidy` at all. -/
theorem initAction_twice_go_mod_differs :
    ((∀ m fs0, (appendingEnv.runCmd ["go", "mod", "init", m] fs0).2 = none ∧
        ((appendingEnv.runCmd ["go", "mod", "init", m] fs0).1 "go.mod").isSome = true) ∧
      (∀ fs0, (appendingEnv.runCmd ["go", "mod", "tidy"] fs0).2 = none) ∧
      (∀ argv fs0, (appendingEnv.runCmd argv fs0).1 "main.go" = fs0 "main.go" ∧
        (appendingEnv.runCmd argv fs0).1 "FyneApp.toml" = fs0 "FyneApp.toml")) ∧
    (initAction appendingEnv ⟨["com.example/myapp"], "", ""⟩ emptyFS).fs "go.mod"
      = some ⟨"module com.example/myapp\nrequire x\n", 0o644⟩ ∧
    (initAction appendingEnv ⟨["com.example/myapp"], "", ""⟩
      (initAction appendingEnv ⟨["com.example/myapp"], "", ""⟩ emptyFS).fs).fs "go.mod"
      = some ⟨"module com.example/myapp\nrequire x\nrequire x\n", 0o644⟩ ∧
    (initAction appendingEnv ⟨["com.example/myapp"], "", ""⟩
      (initAction appendingEnv ⟨["com.example/myapp"], "", ""⟩ emptyFS).fs).fs "go.mod"
      ≠ (initAction appendingEnv ⟨["com.example/myapp"], "", ""⟩ emptyFS).fs "go.mod" ∧
    Event.exec ["go", "mod", "init", "com.example/myapp"] none
      ∈ (initAction removingEnv ⟨["com.example/myapp"], "", ""⟩
          (initAction removingEnv ⟨["com.example/myapp"], "", ""⟩ emptyFS).fs).trace ∧
    (initAction diskFullEnv ⟨["com.example/myapp"], "", ""⟩ emptyFS).trace.count
      (.exec ["go", "mod", "tidy"] none) = 0 := by
  refine ⟨⟨fun m fs0 => ⟨rfl, rfl⟩, ?_, ?_⟩, by decide, by decide, by decide, by decide, by decide⟩
  · intro fs0
    show (appendingGo ["go", "mod", "tidy"] fs0).2 = none
    cases h : fs0 "go.mod" <;> simp [appendingGo, h]
  · intro argv fs0
    show (appendingGo argv fs0).1 "main.go" = fs0 "main.go" ∧
      (appendingGo argv fs0).1 "FyneApp.toml" = fs0 "FyneApp.toml"
    unfold appendingGo
    split
    · exact ⟨rfl, rfl⟩
    · split <;> exact ⟨rfl, rfl⟩
    · exact ⟨rfl, rfl⟩

/-- The only writes of the four steps are of `main.go`, with the code
template on the identifier, and of `FyneApp.toml`, with the metadata template
on the name and the identifier. -/
theorem scaffold_write_content (env : Env) (m id nm : String) (fs : FS)
    (file c : String) (err : Option GoError)
    (hev : Event.write file c err ∈ (scaffold env m id nm fs).trace) :
    (file = "main.go" ∧ c = codeFmt (env.quote id)) ∨
    (file = "FyneApp.toml" ∧ c = tomlFmt (env.quote nm) (env.quote id)) := by
  rcases mem_scaffold_trace env m id nm fs _ hev with h | ⟨_, h⟩ | ⟨_, h⟩ | ⟨_, h⟩
  · rcases mem_checkFileOrCreate_trace env _ _ fs _ h with ⟨e, h⟩ | ⟨_, ⟨e, h⟩ | ⟨e, h⟩⟩
    · cases h
    · injection h with h1 h2 _
      exact Or.inl ⟨h1, h2⟩
    · cases h
  · rcases mem_modStep_trace env m _ _ h with ⟨e, h⟩ | ⟨_, h, _⟩ <;> cases h
  · rcases mem_checkFileOrCreate_trace env _ _ _ _ h with ⟨e, h⟩ | ⟨_, ⟨e, h⟩ | ⟨e, h⟩⟩
    · cases h
    · injection h with h1 h2 _
      exact Or.inr ⟨h1, h2⟩
    · cases h
  · rw [tidyStep_trace] at h
    simp at h

/-- After four steps that returned nil, with a `go` tool that touches neither
`main.go` nor `FyneApp.toml`, a file of these two that was missing holds its
template. -/
theorem scaffold_created_of_ok (env : Env) (m id nm : String) (fs : FS)
    (htool : ∀ argv fs0, (env.runCmd argv fs0).1 "main.go" = fs0 "main.go" ∧
      (env.runCmd argv fs0).1 "FyneApp.toml" = fs0 "FyneApp.toml")
    (hret : (scaffold env m id nm fs).ret = .returned none) :
    (fs "main.go" = none →
      (scaffold env m id nm fs).fs "main.go" = some ⟨codeFmt (env.quote id), 0o644⟩) ∧
    (fs "FyneApp.toml" = none →
      (scaffold env m id nm fs).fs "FyneApp.toml"
        = some ⟨tomlFmt (env.quote nm) (env.quote id), 0o644⟩) := by
  rcases scaffold_cases env m id nm fs with
    ⟨h0, h⟩ | ⟨_, h0, h⟩ | ⟨_, _, h0, h⟩ | ⟨h1, h2, h3, h⟩
  · rw [h] at hret; exact absurd hret h0
  · rw [h] at hret; exact absurd hret h0
  · rw [h] at hret; exact absurd hret h0
  · rw [h]
    constructor
    · intro hmain
      show (tidyStep env _).fs "main.go" = _
      rw [tidyStep_fs, (htool _ _).1]
      have k : (tomlStep env nm id (modStep env m (mainStep env id fs).fs).fs).fs "main.go"
          = (modStep env m (mainStep env id fs).fs).fs "main.go" :=
        checkFileOrCreate_fs_other env _ _ _ _ (by decide)
      rw [k, modStep_fs_of_untouched env m "main.go" _ (fun a b => (htool a b).1)]
      exact checkFileOrCreate_created env _ _ fs hmain h1
    · intro htoml
      show (tidyStep env _).fs "FyneApp.toml" = _
      rw [tidyStep_fs, (htool _ _).2]
      refine checkFileOrCreate_created env _ _ _ ?_ h3
      rw [modStep_fs_of_untouched env m "FyneApp.toml" _ (fun a b => (htool a b).2)]
      have k : (mainStep env id fs).fs "FyneApp.toml" = fs "FyneApp.toml" :=
        checkFileOrCreate_fs_other env _ _ _ _ (by decide)
      rw [k, htoml]

/-- C8: the identifier and the name that `initAction` puts into the
templates.  Every write of a run is of `main.go` with the code template on
the identifier or of `FyneApp.toml` with the metadata template on the name and
the identifier, where the identifier is the `appID` option when that is
non-empty and `getAppID` of the resolved module path otherwise, and likewise
the name with the `name` option and `getAppName`.  With both options
non-empty the written contents are the templates on the options themselves,
so two runs with the same options write the same content to a file whatever
their module path arguments; and in a run that returns nil, with a `go` tool
that touches neither file, a file that was missing ends up with that
content. -/
theorem initAction_overrides_take_precedence (env : Env) (ctx : Context) (fs : FS) :
    (∀ file c err, Event.write file c err ∈ (initAction env ctx fs).trace →
      ∃ m id nm, resolveModpath env ctx = .ok m ∧
        (if ctx.appID = "" then getAppID m else some ctx.appID) = some id ∧
        (if ctx.name = "" then getAppName m else some ctx.name) = some nm ∧
        ((file = "main.go" ∧ c = codeFmt (env.quote id)) ∨
          (file = "FyneApp.toml" ∧ c = tomlFmt (env.quote nm) (env.quote id)))) ∧
    (ctx.appID ≠ "" → ctx.name ≠ "" →
      (∀ file c err, Event.write file c err ∈ (initAction env ctx fs).trace →
        (file = "main.go" ∧ c = codeFmt (env.quote ctx.appID)) ∨
        (file = "FyneApp.toml" ∧ c = tomlFmt (env.quote ctx.name) (env.quote ctx.appID))) ∧
      (∀ args2 fs2 file c1 e1 c2 e2,
        Event.write file c1 e1 ∈ (initAction env ctx fs).trace →
        Event.write file c2 e2 ∈ (initAction env ⟨args2, ctx.appID, ctx.name⟩ fs2).trace →
        c1 = c2) ∧
      ((∀ argv fs0, (env.runCmd argv fs0).1 "main.go" = fs0 "main.go" ∧
          (env.runCmd argv fs0).1 "FyneApp.toml" = fs0 "FyneApp.toml") →
        (initAction env ctx fs).ret = .returned none →
        (fs "main.go" = none →
          (initAction env ctx fs).fs "main.go"
            = some ⟨codeFmt (env.quote ctx.appID), 0o644⟩) ∧
        (fs "FyneApp.toml" = none →
          (initAction env ctx fs).fs "FyneApp.toml"
            = some ⟨tomlFmt (env.quote ctx.name) (env.quote ctx.appID), 0o644⟩))) := by
  have general : ∀ (ctx : Context) (fs : FS) file c err,
      Event.write file c err ∈ (initAction env ctx fs).trace →
      ∃ m id nm, resolveModpath env ctx = .ok m ∧
        (if ctx.appID = "" then getAppID m else some ctx.appID) = some id ∧
        (if ctx.name = "" then getAppName m else some ctx.name) = some nm ∧
        ((file = "main.go" ∧ c = codeFmt (env.quote id)) ∨
          (file = "FyneApp.toml" ∧ c = tomlFmt (env.quote nm) (env.quote id))) := by
    intro ctx fs file c err hev
    rcases initAction_cases env ctx fs with ⟨e, _, h⟩ | ⟨m, id, nm, hm, hid, hnm, h⟩
    · rw [h] at hev
      exact absurd hev (List.not_mem_nil _)
    · rw [h] at hev
      exact ⟨m, id, nm, hm, hid, hnm, scaffold_write_content env m id nm fs file c err hev⟩
  have supplied : ∀ (ctx : Context) (fs : FS), ctx.appID ≠ "" → ctx.name ≠ "" →
      ∀ file c err, Event.write file c err ∈ (initAction env ctx fs).trace →
        (file = "main.go" ∧ c = codeFmt (env.quote ctx.appID)) ∨
        (file = "FyneApp.toml" ∧ c = tomlFmt (env.quote ctx.name) (env.quote ctx.appID)) := by
    intro ctx fs hid hname file c err hev
    obtain ⟨m, id, nm, _, h1, h2, h⟩ := general ctx fs file c err hev
    rw [if_neg hid] at h1
    rw [if_neg hname] at h2
    injection h1 with h1
    injection h2 with h2
    rw [← h1, ← h2] at h
    exact h
  refine ⟨general ctx fs, fun hid hname => ⟨supplied ctx fs hid hname, ?_, ?_⟩⟩
  · intro args2 fs2 file c1 e1 c2 e2 h1 h2
    have a := supplied ctx fs hid hname file c1 e1 h1
    have b := supplied ⟨args2, ctx.appID, ctx.name⟩ fs2 hid hname file c2 e2 h2
    rcases a with ⟨a1, a2⟩ | ⟨a1, a2⟩ <;> rcases b with ⟨b1, b2⟩ | ⟨b1, b2⟩
    · rw [a2, b2]
    · rw [a1] at b1; exact absurd b1 (by decide)
    · rw [a1] at b1; exact absurd b1 (by decide)
    · rw [a2, b2]
  · intro htool hret
    rcases initAction_cases env ctx fs with ⟨e, _, h⟩ | ⟨m, id, nm, hm, h1, h2, h⟩
    · rw [h] at hret
      cases hret
    · rw [h] at hret ⊢
      simp only [resolveAppID, if_neg hid] at h1
      simp only [resolveAppName, if_neg hname] at h2
      injection h1 with h1
      injection h2 with h2
      subst h1
      subst h2
      exact scaffold_created_of_ok env m _ _ fs htool hret

theorem initAction_overrides_take_precedence_witness :
    ("io.fyne.demo" ≠ "" ∧ "Demo" ≠ "") ∧
    ((initAction fakeEnv ⟨["com.example/myapp"], "io.fyne.demo", "Demo"⟩ emptyFS).fs "main.go"
      = some ⟨codeFmt "\"io.fyne.demo\"", 0o644⟩ ∧
    (initAction fakeEnv ⟨["com.example/myapp"], "io.fyne.demo", "Demo"⟩ emptyFS).fs "FyneApp.toml"
      = some ⟨tomlFmt "\"Demo\"" "\"io.fyne.demo\"", 0o644⟩) :=
  ⟨⟨by decide, by decide⟩,
    ((initAction_overrides_take_precedence fakeEnv
        ⟨["com.example/myapp"], "io.fyne.demo", "Demo"⟩ emptyFS).2 (by decide) (by decide)).2.2
      (fun argv fs0 => ⟨fakeGo_untouched "main.go" (by decide) argv fs0,
        fakeGo_untouched "FyneApp.toml" (by decide) argv fs0⟩)
      (by decide) |>.imp (fun h => h rfl) (fun h => h rfl)⟩

end FyneInit
